import Mathlib

/-!
Shallow embedding of the madina urban-network analysis library, covering the
una accessibility tools (src/madina/una/tools.py) and the Zonal facade
(src/madina/zonal/zonal.py, plus the legacy duplicate madina/zonal/zonal.py).

Scalars are kept parametric in a type b with an explicit operation dictionary
ScalarOps, so that the embedded control flow stays executable; theorems
instantiate b := Real.  A Python float NaN is modelled as the value none of
Option b, and a non-NaN float x as some x.
-/

/-- Dictionary of scalar operations standing for Python float arithmetic
(instantiated with b := Real in the theorems). -/
structure ScalarOps (b : Type) where
  addB : b → b → b
  mulB : b → b → b
  divB : b → b → b
  powB : b → b → b
  zeroB : b
  oneB : b
  eB : b
  isZeroB : b → Bool
  ltB : b → b → Bool

/-- The real instantiation of the scalar dictionary: powB is real rpow
(which agrees with Python pow on nonnegative bases), eB is the Euler constant e. -/
noncomputable def realOps : ScalarOps ℝ where
  addB := fun x y => x + y
  mulB := fun x y => x * y
  divB := fun x y => x / y
  powB := fun x y => x ^ y
  zeroB := 0
  oneB := 1
  eB := Real.exp 1
  isZeroB := fun x => decide (x = 0)
  ltB := fun x y => decide (x < y)

/-- Python pow with a possibly-NaN base and a non-NaN exponent:
pow(nan, 0) evaluates to 1.0 in Python, pow(nan, a) is nan for a nonzero,
and pow(x, a) is the ordinary power for non-NaN x. -/
def pyPow {b : Type} (ops : ScalarOps b) (base : Option b) (expo : b) : Option b :=
  match base with
  | none => if ops.isZeroB expo then some ops.oneB else none
  | some x => some (ops.powB x expo)

/-- Python sum over possibly-NaN floats: NaN propagates, the empty sum is 0. -/
def pySum {b : Type} (ops : ScalarOps b) (l : List (Option b)) : Option b :=
  l.foldl (fun acc v =>
    match acc, v with
    | some a, some x => some (ops.addB a x)
    | _, _ => none) (some ops.zeroB)

/-- sum([v for v in l if not np.isnan(v)]): drop the NaN entries, then sum. -/
def sumFiltered {b : Type} (ops : ScalarOps b) (l : List (Option b)) : b :=
  (l.filterMap id).foldl ops.addB ops.zeroB

/-- Python dict assignment d[k] = v on an insertion-ordered association list:
an existing key is overwritten in place, a fresh key is appended. -/
def dictInsert {b : Type} (l : List (ℕ × b)) (k : ℕ) (v : b) : List (ℕ × b) :=
  if l.any (fun p => p.1 == k) then
    l.map (fun p => if p.1 == k then (k, v) else p)
  else
    l ++ [(k, v)]

/-- Evaluate a Python list comprehension [tbl[d] for d in ds] over a dict:
the first missing key raises a KeyError, modelled as none. -/
def lookupAll {b : Type} (tbl : List (ℕ × b)) : List ℕ → Option (List b)
  | [] => some []
  | d :: ds =>
    match tbl.lookup d with
    | none => none
    | some v => (lookupAll tbl ds).map (fun vs => v :: vs)

/-- Pointwise update of a finite map represented as a function. -/
def upd {a : Type} (f : ℕ → a) (k : ℕ) (v : a) : ℕ → a :=
  fun x => if x = k then v else f x

/-- A graph view of the network: a vertex multiset and a multiset of weighted
edges.  Claims about splice restoration compare these multisets (same vertex
set, same edge set, same weights). -/
structure SGraph (b : Type) where
  verts : Multiset ℕ
  edges : Multiset (ℕ × ℕ × b)

/-- The stored projection data of one inserted origin node: its nearest edge
(endpoints eStart, eEnd and weight origW) and the split weights
weight_to_start / weight_to_end. -/
structure SpliceInfo (b : Type) where
  eStart : ℕ
  eEnd : ℕ
  wStart : b
  wEnd : b
  origW : b

/-- Modelled from the spec: add_node_to_graph (madina/zonal/network.py, absent
from src) splices a single origin into the d view — the nearest edge is
replaced by two edges to and from the origin, weighted by weight_to_start and
weight_to_end (spec section 4.3). -/
def add_node_to_graph {b : Type} [DecidableEq b]
    (si : SpliceInfo b) (o : ℕ) (g : SGraph b) : SGraph b where
  verts := o ::ₘ g.verts
  edges := (si.eStart, o, si.wStart) ::ₘ (o, si.eEnd, si.wEnd) ::ₘ
    g.edges.erase (si.eStart, si.eEnd, si.origW)

/-- Modelled from the spec: remove_node_to_graph (madina/zonal/network.py,
absent from src) removes the spliced origin and its two splice edges and
restores the original nearest edge, returning the view to its pre-splice
state (spec section 4.3). -/
def remove_node_to_graph {b : Type} [DecidableEq b]
    (si : SpliceInfo b) (o : ℕ) (g : SGraph b) : SGraph b where
  verts := g.verts.erase o
  edges := (si.eStart, si.eEnd, si.origW) ::ₘ
    ((g.edges.erase (si.eStart, o, si.wStart)).erase (o, si.eEnd, si.wEnd))

/-- Arguments of accessibility / single_accessibility
(src/madina/una/tools.py lines 9-18 and 447-457).  weightAttr models the
weight parameter: none stands for weight=None, some f for a named attribute
column whose (possibly NaN) value at destination d is f d. -/
structure AccArgs (b : Type) where
  reach : Bool
  gravity : Bool
  closestFacility : Bool
  weightAttr : Option (ℕ → Option b)
  alpha : b
  beta : Option b

/-- The network data accessibility reads: the origin rows of the node table
(in iteration order), the whole node table index (in row order), the
per-origin search results, and the per-origin splice data. -/
structure NetData (b : Type) where
  origins : List ℕ
  allNodes : List ℕ
  turn_o_scope : ℕ → List (ℕ × b)
  splice : ℕ → SpliceInfo b

/-- Mutable state threaded through accessibility: the local dicts reaches and
gravities (per origin: an insertion-ordered dict destination to value), the
node-table columns una_closest_destination / una_closest_destination_distance
(none = still NaN), the written una_reach / una_gravity columns (outer none =
column never written, inner none = written NaN), and the shared d view. -/
structure AccState (b : Type) where
  reachesTbl : ℕ → List (ℕ × Option b)
  gravTbl : ℕ → List (ℕ × Option b)
  closest : ℕ → Option (ℕ × b)
  reachW : ℕ → Option (Option b)
  gravW : ℕ → Option (Option b)
  graph : SGraph b

/-- Errors accessibility can raise: the ValueError for gravity without beta
(tools.py lines 29-30, 468-469) and a KeyError from the closest-facility
recompute lookups (lines 86-88, 532-534). -/
inductive AccErr
  | valueErrorBeta
  | keyError
deriving DecidableEq

/-- d_weight = 1 if weight is None else layer attribute value
(tools.py line 61 / 507). -/
def dWeight {b : Type} (ops : ScalarOps b) (args : AccArgs b) (d : ℕ) : Option b :=
  match args.weightAttr with
  | none => some ops.oneB
  | some f => f d

/-- The gravity contribution pow(d_weight, alpha) / pow(math.e, beta * dist)
of one destination (tools.py line 66 / 512); NaN propagates through the
numerator, the denominator is a plain positive float. -/
def gravContrib {b : Type} (ops : ScalarOps b)
    (dw : Option b) (alpha beta dist : b) : Option b :=
  (pyPow ops dw alpha).map (fun x => ops.divB x (ops.powB ops.eB (ops.mulB beta dist)))

/-- The update of the closest-facility record of destination d by origin o at
distance dist (tools.py lines 68-74 / 514-520): record if no origin recorded
yet, overwrite only if the new distance is strictly smaller. -/
def closestUpdate {b : Type} (ops : ScalarOps b)
    (cur : Option (ℕ × b)) (o : ℕ) (dist : b) : Option (ℕ × b) :=
  match cur with
  | none => some (o, dist)
  | some (o0, d0) => if ops.ltB dist d0 then some (o, dist) else some (o0, d0)

/-- The body of the inner destination loop of accessibility
(tools.py lines 58-74 / 504-520), for origin o and one search entry
p = (d_idx, distance). -/
def destStep {b : Type} (ops : ScalarOps b) (args : AccArgs b) (bval : b)
    (o : ℕ) (st : AccState b) (p : ℕ × b) : AccState b :=
  let dw := dWeight ops args p.1
  let st1 := if args.reach then
      { st with reachesTbl := upd st.reachesTbl o (dictInsert (st.reachesTbl o) p.1 dw) }
    else st
  let gv := gravContrib ops dw args.alpha bval p.2
  let st2 := if args.gravity then
      { st1 with gravTbl := upd st1.gravTbl o (dictInsert (st1.gravTbl o) p.1 gv) }
    else st1
  if args.closestFacility then
    { st2 with closest := upd st2.closest p.1 (closestUpdate ops (st2.closest p.1) o p.2) }
  else st2

/-- One iteration of the origin loop of accessibility
(tools.py lines 38-80 / 482-526): initialize the local dicts for this origin,
splice the origin into the d view, take the turn_o_scope search results,
remove the origin again, aggregate over the reached destinations, and write
the una_reach / una_gravity of this origin (sums filtered by np.isnan). -/
def perOrigin {b : Type} [DecidableEq b] (ops : ScalarOps b) (args : AccArgs b)
    (net : NetData b) (bval : b) (st : AccState b) (o : ℕ) : AccState b :=
  let st0 := { st with reachesTbl := upd st.reachesTbl o [],
                       gravTbl := upd st.gravTbl o [] }
  let g1 := add_node_to_graph (net.splice o) o st0.graph
  let dIdxs := net.turn_o_scope o
  let g2 := remove_node_to_graph (net.splice o) o g1
  let st1 := { st0 with graph := g2 }
  let st2 := dIdxs.foldl (destStep ops args bval o) st1
  let rsum := some (some (sumFiltered ops ((st2.reachesTbl o).map (fun q => q.2))))
  let st3 := if args.reach then { st2 with reachW := upd st2.reachW o rsum } else st2
  let gsum := some (some (sumFiltered ops ((st3.gravTbl o).map (fun q => q.2))))
  if args.gravity then { st3 with gravW := upd st3.gravW o gsum } else st3

/-- node_gdf[node_gdf[una_closest_destination] == o_idx].index: the
destinations (in node-table row order) whose recorded closest origin is o. -/
def assignedTo {b : Type} (net : NetData b) (st : AccState b) (o : ℕ) : List ℕ :=
  net.allNodes.filter (fun d =>
    match st.closest d with
    | some q => q.1 == o
    | none => false)

/-- One iteration of the closest-facility recompute loop
(tools.py lines 83-88 / 529-534): collect the destinations whose recorded
closest origin is o (in node-table order) and overwrite, for o, una_reach and
una_gravity with the unfiltered sums of their stored contributions; a missing
dict key raises a KeyError. -/
def phase2Origin {b : Type} (ops : ScalarOps b) (args : AccArgs b)
    (net : NetData b) (st : AccState b) (o : ℕ) : AccState b × Option AccErr :=
  let assigned := assignedTo net st o
  let afterReach : AccState b × Option AccErr :=
    if args.reach then
      match lookupAll (st.reachesTbl o) assigned with
      | none => (st, some AccErr.keyError)
      | some vals => ({ st with reachW := upd st.reachW o (some (pySum ops vals)) }, none)
    else (st, none)
  match afterReach with
  | (st1, some e) => (st1, some e)
  | (st1, none) =>
    if args.gravity then
      match lookupAll (st1.gravTbl o) assigned with
      | none => (st1, some AccErr.keyError)
      | some vals => ({ st1 with gravW := upd st1.gravW o (some (pySum ops vals)) }, none)
    else (st1, none)

/-- The closest-facility recompute pass over a list of origins, stopping at
the first raised error. -/
def phase2 {b : Type} (ops : ScalarOps b) (args : AccArgs b) (net : NetData b)
    (os : List ℕ) (st : AccState b) : AccState b × Option AccErr :=
  os.foldl (fun acc o =>
    match acc with
    | (st1, some e) => (st1, some e)
    | (st1, none) => phase2Origin ops args net st1 o) (st, none)

/-- The shared body of accessibility and single_accessibility after the beta
guard: fresh local dicts, the per-origin pass over os1, then (when
closest_facility is set) the recompute pass over os2. -/
def accessLoop {b : Type} [DecidableEq b] (ops : ScalarOps b) (args : AccArgs b)
    (net : NetData b) (os1 os2 : List ℕ) (st : AccState b) : AccState b × Option AccErr :=
  let bval := args.beta.getD ops.zeroB
  let stIn := { st with reachesTbl := fun _ => [], gravTbl := fun _ => [] }
  let st1 := os1.foldl (perOrigin ops args net bval) stIn
  if args.closestFacility then phase2 ops args net os2 st1 else (st1, none)

/-- accessibility (src/madina/una/tools.py lines 9-89).  The pair returned is
the state at function exit together with the exception raised, if any; an
error raised by the initial guard leaves the state untouched.  The search is
the turn_o_scope call with detour_ratio=1.00 and turn_penalty=False, kept
abstract in NetData since src does not contain madina/una/paths.py. -/
def accessibility {b : Type} [DecidableEq b] (ops : ScalarOps b) (args : AccArgs b)
    (net : NetData b) (st : AccState b) : AccState b × Option AccErr :=
  if args.gravity && args.beta.isNone then (st, some AccErr.valueErrorBeta)
  else accessLoop ops args net net.origins net.origins st

/-- closest_facility (src/madina/una/tools.py lines 180-202): re-check the
beta guard, then delegate to accessibility with closest_facility=True.  The
closestFacility field of the given args is ignored, as in the source, where
the wrapper has no such parameter. -/
def closest_facility {b : Type} [DecidableEq b] (ops : ScalarOps b) (args : AccArgs b)
    (net : NetData b) (st : AccState b) : AccState b × Option AccErr :=
  if args.gravity && args.beta.isNone then (st, some AccErr.valueErrorBeta)
  else accessibility ops { args with closestFacility := true } net st

/-- single_accessibility (src/madina/una/tools.py lines 447-535): the worker
body.  ws is the sequence of origin ids this worker drew from the shared
queue before the sentinel; the recompute pass still runs over all origins of
the node table. -/
def single_accessibility {b : Type} [DecidableEq b] (ops : ScalarOps b)
    (args : AccArgs b) (net : NetData b) (ws : List ℕ) (st : AccState b) :
    AccState b × Option AccErr :=
  if args.gravity && args.beta.isNone then (st, some AccErr.valueErrorBeta)
  else accessLoop ops args net ws net.origins st

/-- The rows node_gdf.loc[processed_origins] a worker returns: one row per
processed origin carrying its id and its written una_reach / una_gravity. -/
def workerRows {b : Type} (st : AccState b) (ws : List ℕ) :
    List (ℕ × Option (Option b) × Option (Option b)) :=
  ws.map (fun o => (o, st.reachW o, st.gravW o))

/-- A worker run as observed by the coordinator: its returned rows on
success, or the exception it raised. -/
def single_accessibility_rows {b : Type} [DecidableEq b] (ops : ScalarOps b)
    (args : AccArgs b) (net : NetData b) (ws : List ℕ) (st : AccState b) :
    Except AccErr (List (ℕ × Option (Option b) × Option (Option b))) :=
  match single_accessibility ops args net ws st with
  | (_, some e) => Except.error e
  | (stF, none) => Except.ok (workerRows stF ws)

/-- future.exception() of one worker: the exception it raised, if any. -/
def errOf {r : Type} : Except AccErr r → Option AccErr
  | Except.error e => some e
  | Except.ok _ => none

/-- future.result() of one successful worker (empty for a failed one; the
coordinator never reads this case because it re-raises first). -/
def rowsOf {r : Type} : Except AccErr (List r) → List r
  | Except.error _ => []
  | Except.ok rows => rows

/-- parallel_accessibility (src/madina/una/tools.py lines 387-443).  The
process pool and manager queue are modelled by their observable effect: parts
is the per-worker sequence of origin ids drawn from the queue (each origin is
drawn by exactly one worker), and every worker runs on its own copy of the
initial state.  If any worker raised, the coordinator re-raises that
exception and returns nothing; otherwise it returns the concatenation of the
rows of the workers. -/
def parallel_accessibility {b : Type} [DecidableEq b] (ops : ScalarOps b)
    (args : AccArgs b) (net : NetData b) (parts : List (List ℕ)) (st : AccState b) :
    Except AccErr (List (ℕ × Option (Option b) × Option (Option b))) :=
  let outs := parts.map (fun ws => single_accessibility_rows ops args net ws st)
  match outs.findSome? errOf with
  | some e => Except.error e
  | none => Except.ok ((outs.map rowsOf).flatten)

/-- The parameter a create_street_network configuration error refers to. -/
inductive CSNParam
  | sourceLayer
  | weightAttribute
  | nodeSnappingTolerance
  | redundantEdgeTreatment
  | turnThresholdDegree
  | turnPenaltyAmount
deriving DecidableEq

/-- A configuration error raised by create_street_network, carrying the
offending parameter it names in its message. -/
inductive CSNError
  | valueError (p : CSNParam)
deriving DecidableEq

/-- The Zonal state create_street_network touches: the loaded layers (name
and gdf column names) and the network attribute.  The constructed network is
abstract (type g), since node_edge_builder and the redundant-edge passes live
in madina/zonal/network_utils.py, which is absent from src. -/
structure ZonalState (g : Type) where
  layers : List (String × List String)
  network : Option g

/-- The weight_attribute guard of create_street_network
(src/madina/zonal/zonal.py lines 174-179): bad when a name is given that is
not a column of the source layer. -/
def weightAttrBad (z : ZonalState g) (source_layer : String)
    (weight_attribute : Option String) : Bool :=
  match weight_attribute with
  | none => false
  | some w => !(((z.layers.lookup source_layer).getD []).contains w)

/-- create_street_network of the src-layout package
(src/madina/zonal/zonal.py lines 132-241): the validation chain in source
order, then network construction.  Everything from node_edge_builder to the
Network constructor (lines 210-240, whose callees are absent from src) is
folded into the abstract builder argument; the modelled treatment parameter
is always a string, so the TypeError branch for non-string treatments cannot
arise and only the ValueError branches are modelled. -/
def create_street_network {g : Type}
    (builder : String → Option String → ℚ → String → ℚ → ℚ → g)
    (z : ZonalState g) (source_layer : String) (weight_attribute : Option String)
    (node_snapping_tolerance : ℚ) (redundant_edge_treatment : String)
    (turn_threshold_degree turn_penalty_amount : ℚ) :
    ZonalState g × Option CSNError :=
  if (z.layers.lookup source_layer).isNone then
    (z, some (CSNError.valueError CSNParam.sourceLayer))
  else if weightAttrBad z source_layer weight_attribute then
    (z, some (CSNError.valueError CSNParam.weightAttribute))
  else if node_snapping_tolerance < 0 then
    (z, some (CSNError.valueError CSNParam.nodeSnappingTolerance))
  else if !(["keep", "discard", "split"].contains redundant_edge_treatment) then
    (z, some (CSNError.valueError CSNParam.redundantEdgeTreatment))
  else if turn_threshold_degree < 0 ∨ 180 < turn_threshold_degree then
    (z, some (CSNError.valueError CSNParam.turnThresholdDegree))
  else if turn_penalty_amount < 0 then
    (z, some (CSNError.valueError CSNParam.turnPenaltyAmount))
  else
    ({ z with network := some (builder source_layer weight_attribute
        node_snapping_tolerance redundant_edge_treatment
        turn_threshold_degree turn_penalty_amount) }, none)

/-- create_street_network of the legacy top-level package
(madina/zonal/zonal.py lines 120-199): only the source-layer membership is
validated; node_snapping_tolerance, turn_threshold_degree and
turn_penalty_amount flow straight into construction (abstracted as builder)
and the Network constructor. -/
def legacy_create_street_network {g : Type}
    (builder : Option String → ℚ → Bool → Bool → ℚ → ℚ → g)
    (z : ZonalState g) (source_layer : String) (weight_attribute : Option String)
    (node_snapping_tolerance : ℚ)
    (_prepare_geom _tag_edges discard_redundant split_redundant : Bool)
    (turn_threshold_degree turn_penalty_amount : ℚ) :
    ZonalState g × Option CSNError :=
  if (z.layers.lookup source_layer).isNone then
    (z, some (CSNError.valueError CSNParam.sourceLayer))
  else
    ({ z with network := some (builder weight_attribute node_snapping_tolerance
        discard_redundant split_redundant
        turn_threshold_degree turn_penalty_amount) }, none)

/-- Python round on a rational: round half to even. -/
def pyRound (x : ℚ) : ℤ :=
  let f : ℤ := ⌊x⌋
  let r : ℚ := x - f
  if r < 1/2 then f
  else if 1/2 < r then f + 1
  else if f % 2 = 0 then f else f + 1

/-- The default layer color assigned by load_layer
(src/madina/zonal/zonal.py line 112):
[round(random.random() * 255), round(random.random() * 255),
round(random.random() * 255)].  The hidden global random-number stream is
made explicit as the argument rng (call i reads rng i). -/
def defaultLayerColor (rng : ℕ → ℚ) : List ℤ :=
  [pyRound (rng 0 * 255), pyRound (rng 1 * 255), pyRound (rng 2 * 255)]

/-- The color argument of color_gdf: a single color or a categorical
value-to-color dict. -/
inductive PyColorSpec
  | one (c : List ℚ)
  | dict (m : List (String × List ℚ))
deriving DecidableEq

/-- A fresh random color [random() * 255, random() * 255, random() * 255];
draw i of the stream uses rng entries 3i, 3i+1, 3i+2. -/
def randColor (rng : ℕ → ℚ) (i : ℕ) : List ℚ :=
  [rng (3 * i) * 255, rng (3 * i + 1) * 255, rng (3 * i + 2) * 255]

/-- The color_method / color resolution of color_gdf
(src/madina/zonal/zonal.py lines 581-600): resolve the method from the
arguments, then fill in random colors when none were given - a single random
color, or a categorical dict mapping __other__ and each distinct attribute
value (first-occurrence order, passed as distinctVals) to a random color.
The column-building part (lines 602-624) is not needed by any claim and is
not modelled. -/
def resolveColorArgs (rng : ℕ → ℚ) (distinctVals : List String)
    (hasColorByAttribute : Bool) (color_method : Option String)
    (color : Option PyColorSpec) : String × Option PyColorSpec :=
  let method := match color_method with
    | none => if hasColorByAttribute then "categorical" else "single_color"
    | some m => m
  if !hasColorByAttribute && color.isNone then
    ("single_color", some (PyColorSpec.one (randColor rng 0)))
  else if color.isNone then
    if method == "single_color" then
      (method, some (PyColorSpec.one (randColor rng 0)))
    else if method == "categorical" then
      (method, some (PyColorSpec.dict (("__other__", [255, 255, 255]) ::
        distinctVals.enum.map (fun q => (q.2, randColor rng (q.1 + 1))))))
    else (method, none)
  else (method, color)

/-! Concrete fixtures used by the witness and counterexample theorems:
a network with one street edge (0,1) of weight 5, one origin node 10 whose
splice data points at that edge, and one destination node 20 reached at
network distance 7. -/

def tSplice : SpliceInfo ℝ where
  eStart := 0
  eEnd := 1
  wStart := 2
  wEnd := 3
  origW := 5

def tGraph : SGraph ℝ where
  verts := {0, 1}
  edges := {(0, 1, (5 : ℝ))}

def tNet : NetData ℝ where
  origins := [10]
  allNodes := [0, 1, 10, 20]
  turn_o_scope := fun o => if o = 10 then [(20, 7)] else []
  splice := fun _ => tSplice

def tState : AccState ℝ where
  reachesTbl := fun _ => []
  gravTbl := fun _ => []
  closest := fun _ => none
  reachW := fun _ => none
  gravW := fun _ => none
  graph := tGraph

def tArgsRG : AccArgs ℝ where
  reach := true
  gravity := true
  closestFacility := false
  weightAttr := none
  alpha := 1
  beta := some 0

def tArgsCF : AccArgs ℝ :=
  { tArgsRG with closestFacility := true }

def tArgsNoBeta : AccArgs ℝ where
  reach := false
  gravity := true
  closestFacility := false
  weightAttr := none
  alpha := 1
  beta := none

def tArgsPlain : AccArgs ℝ where
  reach := false
  gravity := false
  closestFacility := false
  weightAttr := none
  alpha := 1
  beta := none

def tStateC3 : AccState ℝ :=
  { tState with closest := fun d => if d = 20 then some (5, (7 : ℝ)) else none }

/-- Fixture for the NaN-weight gravity counterexample: every destination
weight is NaN and alpha = 0, so pow(nan, 0) = 1.0 enters the gravity sum. -/
def tArgsC10 : AccArgs ℝ where
  reach := true
  gravity := true
  closestFacility := false
  weightAttr := some (fun _ => none)
  alpha := 0
  beta := some 0

def tZonal7 : ZonalState Unit where
  layers := [("streets", ["geometry", "length"])]
  network := none

/-- The nearest-edge record of one origin as an edge of the d view. -/
def spliceEdge {b : Type} (si : SpliceInfo b) : ℕ × ℕ × b :=
  (si.eStart, si.eEnd, si.origW)

/-- Invariant carried through the per-origin pass when closest-facility data
is being recorded: every recorded closest entry some (o1, q) of a destination
d was written by an already-processed origin o1 (not among the still-pending
list os), at the search distance dist o1 d of a destination o1 actually
reached, and the local dicts of o1 still hold the matching stored weight and
gravity contributions for d. -/
def ClosestInv {b : Type} (ops : ScalarOps b) (args : AccArgs b) (net : NetData b)
    (bval : b) (dist : ℕ → ℕ → b) (os : List ℕ) (st : AccState b) : Prop :=
  ∀ d o1 q, st.closest d = some (o1, q) →
    o1 ∉ os ∧ q = dist o1 d ∧ d ∈ (net.turn_o_scope o1).map Prod.fst ∧
    (args.reach = true →
      (st.reachesTbl o1).lookup d = some (dWeight ops args d)) ∧
    (args.gravity = true →
      (st.gravTbl o1).lookup d =
        some (gravContrib ops (dWeight ops args d) args.alpha bval (dist o1 d)))

/-! Basic lemmas about the map-update and dict helpers. -/

theorem upd_same {a : Type} (f : ℕ → a) (k : ℕ) (v : a) : upd f k v k = v := by
  simp [upd]

theorem upd_ne {a : Type} (f : ℕ → a) (k : ℕ) (v : a) {x : ℕ} (h : x ≠ k) :
    upd f k v x = f x := by
  simp [upd, h]

theorem dictInsert_fresh {b : Type} (l : List (ℕ × b)) (k : ℕ) (v : b)
    (h : ∀ q ∈ l, q.1 ≠ k) : dictInsert l k v = l ++ [(k, v)] := by
  have : l.any (fun p => p.1 == k) = false := by
    rw [List.any_eq_false]
    intro q hq
    simpa using h q hq
  simp [dictInsert, this]

theorem lookupAll_map {b : Type} (tbl : List (ℕ × b)) (f : ℕ → b) :
    ∀ ds : List ℕ, (∀ d ∈ ds, tbl.lookup d = some (f d)) →
      lookupAll tbl ds = some (ds.map f)
  | [], _ => rfl
  | d :: ds, h => by
    have hd := h d (by simp)
    have hrest := lookupAll_map tbl f ds (fun x hx => h x (by simp [hx]))
    simp [lookupAll, hd, hrest]

theorem lookup_map_key {b c : Type} (f : ℕ → b) :
    ∀ (l : List (ℕ × c)) (d : ℕ), d ∈ l.map Prod.fst →
      (l.map (fun p => (p.1, f p.1))).lookup d = some (f d)
  | [], d, h => by simp at h
  | p :: l, d, h => by
    by_cases hd : d = p.1
    · subst hd
      simp [List.lookup]
    · have hmem : d ∈ l.map Prod.fst := by
        simp only [List.map_cons, List.mem_cons] at h
        exact h.resolve_left hd
      have hne : (d == p.1) = false := by simp [hd]
      simp only [List.map_cons, List.lookup, hne]
      exact lookup_map_key f l d hmem

/-- Splice restoration: removing a just-added origin returns the view to its
pre-splice state, provided the nearest edge was present. -/
theorem remove_add_node_restore {b : Type} [DecidableEq b]
    (si : SpliceInfo b) (o : ℕ) (g : SGraph b)
    (h : spliceEdge si ∈ g.edges) :
    remove_node_to_graph si o (add_node_to_graph si o g) = g := by
  cases g with
  | mk verts edges =>
    simp only [remove_node_to_graph, add_node_to_graph, SGraph.mk.injEq]
    constructor
    · exact Multiset.erase_cons_head o verts
    · rw [Multiset.erase_cons_head, Multiset.erase_cons_head]
      exact Multiset.cons_erase h

/-! Field-by-field description of one destination step. -/

theorem destStep_reachW {b : Type} (ops : ScalarOps b) (args : AccArgs b)
    (bval : b) (o : ℕ) (st : AccState b) (p : ℕ × b) :
    (destStep ops args bval o st p).reachW = st.reachW := by
  cases hR : args.reach <;> cases hG : args.gravity <;> cases hC : args.closestFacility <;>
    simp [destStep, hR, hG, hC]

theorem destStep_gravW {b : Type} (ops : ScalarOps b) (args : AccArgs b)
    (bval : b) (o : ℕ) (st : AccState b) (p : ℕ × b) :
    (destStep ops args bval o st p).gravW = st.gravW := by
  cases hR : args.reach <;> cases hG : args.gravity <;> cases hC : args.closestFacility <;>
    simp [destStep, hR, hG, hC]

theorem destStep_graph {b : Type} (ops : ScalarOps b) (args : AccArgs b)
    (bval : b) (o : ℕ) (st : AccState b) (p : ℕ × b) :
    (destStep ops args bval o st p).graph = st.graph := by
  cases hR : args.reach <;> cases hG : args.gravity <;> cases hC : args.closestFacility <;>
    simp [destStep, hR, hG, hC]

theorem destStep_reachesTbl_ne {b : Type} (ops : ScalarOps b) (args : AccArgs b)
    (bval : b) (o : ℕ) (st : AccState b) (p : ℕ × b) {q : ℕ} (h : q ≠ o) :
    (destStep ops args bval o st p).reachesTbl q = st.reachesTbl q := by
  cases hR : args.reach <;> cases hG : args.gravity <;> cases hC : args.closestFacility <;>
    simp [destStep, hR, hG, hC, upd_ne _ _ _ h]

theorem destStep_gravTbl_ne {b : Type} (ops : ScalarOps b) (args : AccArgs b)
    (bval : b) (o : ℕ) (st : AccState b) (p : ℕ × b) {q : ℕ} (h : q ≠ o) :
    (destStep ops args bval o st p).gravTbl q = st.gravTbl q := by
  cases hR : args.reach <;> cases hG : args.gravity <;> cases hC : args.closestFacility <;>
    simp [destStep, hR, hG, hC, upd_ne _ _ _ h]

theorem destStep_reachesTbl_self {b : Type} (ops : ScalarOps b) (args : AccArgs b)
    (bval : b) (o : ℕ) (st : AccState b) (p : ℕ × b) :
    (destStep ops args bval o st p).reachesTbl o =
      if args.reach then dictInsert (st.reachesTbl o) p.1 (dWeight ops args p.1)
      else st.reachesTbl o := by
  cases hR : args.reach <;> cases hG : args.gravity <;> cases hC : args.closestFacility <;>
    simp [destStep, hR, hG, hC, upd_same, upd]

theorem destStep_gravTbl_self {b : Type} (ops : ScalarOps b) (args : AccArgs b)
    (bval : b) (o : ℕ) (st : AccState b) (p : ℕ × b) :
    (destStep ops args bval o st p).gravTbl o =
      if args.gravity then
        dictInsert (st.gravTbl o) p.1
          (gravContrib ops (dWeight ops args p.1) args.alpha bval p.2)
      else st.gravTbl o := by
  cases hR : args.reach <;> cases hG : args.gravity <;> cases hC : args.closestFacility <;>
    simp [destStep, hR, hG, hC, upd_same, upd]

theorem destStep_closest {b : Type} (ops : ScalarOps b) (args : AccArgs b)
    (bval : b) (o : ℕ) (st : AccState b) (p : ℕ × b) (d : ℕ) :
    (destStep ops args bval o st p).closest d =
      if args.closestFacility ∧ d = p.1
      then closestUpdate ops (st.closest p.1) o p.2
      else st.closest d := by
  by_cases hd : d = p.1 <;>
    cases hR : args.reach <;> cases hG : args.gravity <;> cases hC : args.closestFacility <;>
      simp [destStep, hR, hG, hC, upd, hd]

/-! The inner destination fold. -/

theorem foldl_destStep_reachW {b : Type} (ops : ScalarOps b) (args : AccArgs b)
    (bval : b) (o : ℕ) :
    ∀ (l : List (ℕ × b)) (st : AccState b),
      (l.foldl (destStep ops args bval o) st).reachW = st.reachW
  | [], _ => rfl
  | p :: l, st => by
    rw [List.foldl_cons, foldl_destStep_reachW ops args bval o l, destStep_reachW]

theorem foldl_destStep_gravW {b : Type} (ops : ScalarOps b) (args : AccArgs b)
    (bval : b) (o : ℕ) :
    ∀ (l : List (ℕ × b)) (st : AccState b),
      (l.foldl (destStep ops args bval o) st).gravW = st.gravW
  | [], _ => rfl
  | p :: l, st => by
    rw [List.foldl_cons, foldl_destStep_gravW ops args bval o l, destStep_gravW]

theorem foldl_destStep_graph {b : Type} (ops : ScalarOps b) (args : AccArgs b)
    (bval : b) (o : ℕ) :
    ∀ (l : List (ℕ × b)) (st : AccState b),
      (l.foldl (destStep ops args bval o) st).graph = st.graph
  | [], _ => rfl
  | p :: l, st => by
    rw [List.foldl_cons, foldl_destStep_graph ops args bval o l, destStep_graph]

theorem foldl_destStep_reachesTbl_ne {b : Type} (ops : ScalarOps b) (args : AccArgs b)
    (bval : b) (o : ℕ) {q : ℕ} (h : q ≠ o) :
    ∀ (l : List (ℕ × b)) (st : AccState b),
      (l.foldl (destStep ops args bval o) st).reachesTbl q = st.reachesTbl q
  | [], _ => rfl
  | p :: l, st => by
    rw [List.foldl_cons, foldl_destStep_reachesTbl_ne ops args bval o h l,
      destStep_reachesTbl_ne ops args bval o st p h]

theorem foldl_destStep_gravTbl_ne {b : Type} (ops : ScalarOps b) (args : AccArgs b)
    (bval : b) (o : ℕ) {q : ℕ} (h : q ≠ o) :
    ∀ (l : List (ℕ × b)) (st : AccState b),
      (l.foldl (destStep ops args bval o) st).gravTbl q = st.gravTbl q
  | [], _ => rfl
  | p :: l, st => by
    rw [List.foldl_cons, foldl_destStep_gravTbl_ne ops args bval o h l,
      destStep_gravTbl_ne ops args bval o st p h]

theorem foldl_destStep_reachesTbl {b : Type} (ops : ScalarOps b) (args : AccArgs b)
    (bval : b) (o : ℕ) (hr : args.reach = true) :
    ∀ (l : List (ℕ × b)) (st : AccState b),
      (l.map Prod.fst).Nodup →
      (∀ p ∈ l, ∀ q ∈ st.reachesTbl o, q.1 ≠ p.1) →
      (l.foldl (destStep ops args bval o) st).reachesTbl o =
        st.reachesTbl o ++ l.map (fun p => (p.1, dWeight ops args p.1))
  | [], st, _, _ => by simp
  | p :: l, st, hnd, hdisj => by
    rw [List.foldl_cons]
    have hstep : (destStep ops args bval o st p).reachesTbl o =
        st.reachesTbl o ++ [(p.1, dWeight ops args p.1)] := by
      rw [destStep_reachesTbl_self, hr, if_pos rfl,
        dictInsert_fresh _ _ _ (fun q hq => hdisj p (by simp) q hq)]
    have hnd2 : (l.map Prod.fst).Nodup := by
      simp only [List.map_cons, List.nodup_cons] at hnd
      exact hnd.2
    have hhead : p.1 ∉ l.map Prod.fst := by
      simp only [List.map_cons, List.nodup_cons] at hnd
      exact hnd.1
    have hdisj2 : ∀ p' ∈ l, ∀ q ∈ (destStep ops args bval o st p).reachesTbl o, q.1 ≠ p'.1 := by
      intro p' hp' q hq
      rw [hstep] at hq
      rcases List.mem_append.mp hq with hq | hq
      · exact hdisj p' (by simp [hp']) q hq
      · have : q = (p.1, dWeight ops args p.1) := by simpa using hq
        subst this
        intro hcontra
        exact hhead (hcontra ▸ List.mem_map.mpr ⟨p', hp', rfl⟩)
    rw [foldl_destStep_reachesTbl ops args bval o hr l _ hnd2 hdisj2, hstep]
    simp

theorem foldl_destStep_gravTbl {b : Type} (ops : ScalarOps b) (args : AccArgs b)
    (bval : b) (o : ℕ) (hg : args.gravity = true) :
    ∀ (l : List (ℕ × b)) (st : AccState b),
      (l.map Prod.fst).Nodup →
      (∀ p ∈ l, ∀ q ∈ st.gravTbl o, q.1 ≠ p.1) →
      (l.foldl (destStep ops args bval o) st).gravTbl o =
        st.gravTbl o ++ l.map (fun p =>
          (p.1, gravContrib ops (dWeight ops args p.1) args.alpha bval p.2))
  | [], st, _, _ => by simp
  | p :: l, st, hnd, hdisj => by
    rw [List.foldl_cons]
    have hstep : (destStep ops args bval o st p).gravTbl o =
        st.gravTbl o ++ [(p.1, gravContrib ops (dWeight ops args p.1) args.alpha bval p.2)] := by
      rw [destStep_gravTbl_self, hg, if_pos rfl,
        dictInsert_fresh _ _ _ (fun q hq => hdisj p (by simp) q hq)]
    have hnd2 : (l.map Prod.fst).Nodup := by
      simp only [List.map_cons, List.nodup_cons] at hnd
      exact hnd.2
    have hhead : p.1 ∉ l.map Prod.fst := by
      simp only [List.map_cons, List.nodup_cons] at hnd
      exact hnd.1
    have hdisj2 : ∀ p' ∈ l, ∀ q ∈ (destStep ops args bval o st p).gravTbl o, q.1 ≠ p'.1 := by
      intro p' hp' q hq
      rw [hstep] at hq
      rcases List.mem_append.mp hq with hq | hq
      · exact hdisj p' (by simp [hp']) q hq
      · have : q = (p.1, gravContrib ops (dWeight ops args p.1) args.alpha bval p.2) := by
          simpa using hq
        subst this
        intro hcontra
        exact hhead (hcontra ▸ List.mem_map.mpr ⟨p', hp', rfl⟩)
    rw [foldl_destStep_gravTbl ops args bval o hg l _ hnd2 hdisj2, hstep]
    simp

theorem foldl_destStep_reachesTbl_false {b : Type} (ops : ScalarOps b) (args : AccArgs b)
    (bval : b) (o : ℕ) (hr : args.reach = false) :
    ∀ (l : List (ℕ × b)) (st : AccState b),
      (l.foldl (destStep ops args bval o) st).reachesTbl o = st.reachesTbl o
  | [], _ => rfl
  | p :: l, st => by
    rw [List.foldl_cons, foldl_destStep_reachesTbl_false ops args bval o hr l,
      destStep_reachesTbl_self, hr]
    simp

theorem foldl_destStep_gravTbl_false {b : Type} (ops : ScalarOps b) (args : AccArgs b)
    (bval : b) (o : ℕ) (hg : args.gravity = false) :
    ∀ (l : List (ℕ × b)) (st : AccState b),
      (l.foldl (destStep ops args bval o) st).gravTbl o = st.gravTbl o
  | [], _ => rfl
  | p :: l, st => by
    rw [List.foldl_cons, foldl_destStep_gravTbl_false ops args bval o hg l,
      destStep_gravTbl_self, hg]
    simp

theorem foldl_destStep_closest_preserve {b : Type} (ops : ScalarOps b) (args : AccArgs b)
    (bval : b) (o : ℕ) :
    ∀ (l : List (ℕ × b)) (st : AccState b) (d o1 : ℕ) (d1 : b),
      st.closest d = some (o1, d1) →
      (∀ p ∈ l, p.1 = d → ops.ltB p.2 d1 = false) →
      (l.foldl (destStep ops args bval o) st).closest d = some (o1, d1)
  | [], _, _, _, _, hcur, _ => hcur
  | p :: l, st, d, o1, d1, hcur, hge => by
    rw [List.foldl_cons]
    refine foldl_destStep_closest_preserve ops args bval o l _ d o1 d1 ?_
      (fun q hq hqd => hge q (by simp [hq]) hqd)
    rw [destStep_closest]
    by_cases hcond : args.closestFacility = true ∧ d = p.1
    · obtain ⟨hc, hdp⟩ := hcond
      rw [if_pos ⟨hc, hdp⟩, ← hdp, hcur]
      simp only [closestUpdate]
      rw [hge p (by simp) hdp.symm]
      simp
    · rw [if_neg ?_, hcur]
      intro hcontra
      exact hcond ⟨hcontra.1, hcontra.2⟩

theorem foldl_destStep_closest_shape {b : Type} (ops : ScalarOps b) (args : AccArgs b)
    (bval : b) (o : ℕ) :
    ∀ (l : List (ℕ × b)) (st : AccState b) (d : ℕ),
      (l.foldl (destStep ops args bval o) st).closest d = st.closest d ∨
        ∃ dd, (d, dd) ∈ l ∧
          (l.foldl (destStep ops args bval o) st).closest d = some (o, dd)
  | [], _, _ => Or.inl rfl
  | p :: l, st, d => by
    rw [List.foldl_cons]
    rcases foldl_destStep_closest_shape ops args bval o l
        (destStep ops args bval o st p) d with h | ⟨dd, hmem, hres⟩
    · rw [h]
      have hstep := destStep_closest ops args bval o st p d
      by_cases hcond : args.closestFacility = true ∧ d = p.1
      · obtain ⟨hc, hdp⟩ := hcond
        rw [if_pos ⟨hc, hdp⟩] at hstep
        rw [hstep, ← hdp]
        cases hcur : st.closest d with
        | none =>
          refine Or.inr ⟨p.2, ?_, ?_⟩
          · rw [hdp]
            simp
          · simp [closestUpdate]
        | some q =>
          cases q with
          | mk o0 d0 =>
            by_cases hlt : ops.ltB p.2 d0 = true
            · refine Or.inr ⟨p.2, ?_, ?_⟩
              · rw [hdp]
                simp
              · simp [closestUpdate, hlt]
            · left
              simp [closestUpdate, hlt]
      · rw [if_neg hcond] at hstep
        rw [hstep]
        exact Or.inl rfl
    · exact Or.inr ⟨dd, List.mem_cons_of_mem p hmem, hres⟩

/-! Field-by-field description of one origin pass. -/

theorem perOrigin_graph {b : Type} [DecidableEq b] (ops : ScalarOps b)
    (args : AccArgs b) (net : NetData b) (bval : b) (st : AccState b) (o : ℕ)
    (h : spliceEdge (net.splice o) ∈ st.graph.edges) :
    (perOrigin ops args net bval st o).graph = st.graph := by
  have hrest : remove_node_to_graph (net.splice o) o
      (add_node_to_graph (net.splice o) o st.graph) = st.graph :=
    remove_add_node_restore (net.splice o) o st.graph h
  cases hR : args.reach <;> cases hG : args.gravity <;>
    simp [perOrigin, hR, hG, foldl_destStep_graph, hrest]

theorem perOrigin_reachW_ne {b : Type} [DecidableEq b] (ops : ScalarOps b)
    (args : AccArgs b) (net : NetData b) (bval : b) (st : AccState b) (o : ℕ)
    {q : ℕ} (h : q ≠ o) :
    (perOrigin ops args net bval st o).reachW q = st.reachW q := by
  cases hR : args.reach <;> cases hG : args.gravity <;>
    simp [perOrigin, hR, hG, foldl_destStep_reachW, upd_ne _ _ _ h]

theorem perOrigin_gravW_ne {b : Type} [DecidableEq b] (ops : ScalarOps b)
    (args : AccArgs b) (net : NetData b) (bval : b) (st : AccState b) (o : ℕ)
    {q : ℕ} (h : q ≠ o) :
    (perOrigin ops args net bval st o).gravW q = st.gravW q := by
  cases hR : args.reach <;> cases hG : args.gravity <;>
    simp [perOrigin, hR, hG, foldl_destStep_gravW, upd_ne _ _ _ h]

theorem perOrigin_reachesTbl_ne {b : Type} [DecidableEq b] (ops : ScalarOps b)
    (args : AccArgs b) (net : NetData b) (bval : b) (st : AccState b) (o : ℕ)
    {q : ℕ} (h : q ≠ o) :
    (perOrigin ops args net bval st o).reachesTbl q = st.reachesTbl q := by
  cases hR : args.reach <;> cases hG : args.gravity <;>
    simp [perOrigin, hR, hG, foldl_destStep_reachesTbl_ne ops args bval o h,
      upd_ne _ _ _ h]

theorem perOrigin_gravTbl_ne {b : Type} [DecidableEq b] (ops : ScalarOps b)
    (args : AccArgs b) (net : NetData b) (bval : b) (st : AccState b) (o : ℕ)
    {q : ℕ} (h : q ≠ o) :
    (perOrigin ops args net bval st o).gravTbl q = st.gravTbl q := by
  cases hR : args.reach <;> cases hG : args.gravity <;>
    simp [perOrigin, hR, hG, foldl_destStep_gravTbl_ne ops args bval o h,
      upd_ne _ _ _ h]

theorem perOrigin_closest_preserve {b : Type} [DecidableEq b] (ops : ScalarOps b)
    (args : AccArgs b) (net : NetData b) (bval : b) (st : AccState b) (o : ℕ)
    (d o1 : ℕ) (d1 : b)
    (hcur : st.closest d = some (o1, d1))
    (hge : ∀ p ∈ net.turn_o_scope o, p.1 = d → ops.ltB p.2 d1 = false) :
    (perOrigin ops args net bval st o).closest d = some (o1, d1) := by
  cases hR : args.reach <;> cases hG : args.gravity <;>
    · simp only [perOrigin, hR, hG, Bool.false_eq_true, if_false, if_true]
      exact foldl_destStep_closest_preserve ops args bval o _ _ d o1 d1 hcur hge

theorem perOrigin_reachesTbl_self {b : Type} [DecidableEq b] (ops : ScalarOps b)
    (args : AccArgs b) (net : NetData b) (bval : b) (st : AccState b) (o : ℕ)
    (hnd : ((net.turn_o_scope o).map Prod.fst).Nodup) :
    (perOrigin ops args net bval st o).reachesTbl o =
      if args.reach then (net.turn_o_scope o).map (fun p => (p.1, dWeight ops args p.1))
      else [] := by
  cases hR : args.reach with
  | false =>
    cases hG : args.gravity <;>
      simp [perOrigin, hR, hG, foldl_destStep_reachesTbl_false ops args bval o hR,
        upd_same, upd]
  | true =>
    have hfold := fun (st1 : AccState b) (h1 : st1.reachesTbl o = []) =>
      foldl_destStep_reachesTbl ops args bval o hR (net.turn_o_scope o) st1 hnd
        (by intro p hp q hq; rw [h1] at hq; simp at hq)
    cases hG : args.gravity <;>
      · simp [perOrigin, hR, hG, upd_same, upd]
        rw [hfold _ (by simp [upd])]
        simp [upd]

theorem perOrigin_gravTbl_self {b : Type} [DecidableEq b] (ops : ScalarOps b)
    (args : AccArgs b) (net : NetData b) (bval : b) (st : AccState b) (o : ℕ)
    (hnd : ((net.turn_o_scope o).map Prod.fst).Nodup) :
    (perOrigin ops args net bval st o).gravTbl o =
      if args.gravity then
        (net.turn_o_scope o).map (fun p =>
          (p.1, gravContrib ops (dWeight ops args p.1) args.alpha bval p.2))
      else [] := by
  cases hG : args.gravity with
  | false =>
    cases hR : args.reach <;>
      simp [perOrigin, hR, hG, foldl_destStep_gravTbl_false ops args bval o hG,
        upd_same, upd]
  | true =>
    have hfold := fun (st1 : AccState b) (h1 : st1.gravTbl o = []) =>
      foldl_destStep_gravTbl ops args bval o hG (net.turn_o_scope o) st1 hnd
        (by intro p hp q hq; rw [h1] at hq; simp at hq)
    cases hR : args.reach <;>
      · simp [perOrigin, hR, hG, upd_same, upd]
        rw [hfold _ (by simp [upd])]
        simp [upd]

theorem perOrigin_reachW_self {b : Type} [DecidableEq b] (ops : ScalarOps b)
    (args : AccArgs b) (net : NetData b) (bval : b) (st : AccState b) (o : ℕ)
    (hr : args.reach = true)
    (hnd : ((net.turn_o_scope o).map Prod.fst).Nodup) :
    (perOrigin ops args net bval st o).reachW o =
      some (some (sumFiltered ops
        ((net.turn_o_scope o).map (fun p => dWeight ops args p.1)))) := by
  have hfold := fun (st1 : AccState b) (h1 : st1.reachesTbl o = []) =>
    foldl_destStep_reachesTbl ops args bval o hr (net.turn_o_scope o) st1 hnd
      (by intro p hp q hq; rw [h1] at hq; simp at hq)
  cases hG : args.gravity <;>
    · simp [perOrigin, hr, hG, upd_same, upd]
      rw [hfold _ (by simp [upd])]
      simp [upd]
      rfl

theorem perOrigin_gravW_self {b : Type} [DecidableEq b] (ops : ScalarOps b)
    (args : AccArgs b) (net : NetData b) (bval : b) (st : AccState b) (o : ℕ)
    (hg : args.gravity = true)
    (hnd : ((net.turn_o_scope o).map Prod.fst).Nodup) :
    (perOrigin ops args net bval st o).gravW o =
      some (some (sumFiltered ops
        ((net.turn_o_scope o).map (fun p =>
          gravContrib ops (dWeight ops args p.1) args.alpha bval p.2)))) := by
  have hfold := fun (st1 : AccState b) (h1 : st1.gravTbl o = []) =>
    foldl_destStep_gravTbl ops args bval o hg (net.turn_o_scope o) st1 hnd
      (by intro p hp q hq; rw [h1] at hq; simp at hq)
  cases hR : args.reach <;>
    · simp [perOrigin, hR, hg, upd_same, upd]
      rw [hfold _ (by simp [upd])]
      simp [upd]
      rfl

theorem perOrigin_reachW_self_false {b : Type} [DecidableEq b] (ops : ScalarOps b)
    (args : AccArgs b) (net : NetData b) (bval : b) (st : AccState b) (o : ℕ)
    (hr : args.reach = false) :
    (perOrigin ops args net bval st o).reachW o = st.reachW o := by
  cases hG : args.gravity <;>
    simp [perOrigin, hr, hG, foldl_destStep_reachW]

theorem perOrigin_gravW_self_false {b : Type} [DecidableEq b] (ops : ScalarOps b)
    (args : AccArgs b) (net : NetData b) (bval : b) (st : AccState b) (o : ℕ)
    (hg : args.gravity = false) :
    (perOrigin ops args net bval st o).gravW o = st.gravW o := by
  cases hR : args.reach <;>
    simp [perOrigin, hR, hg, foldl_destStep_gravW]

theorem perOrigin_closest_shape {b : Type} [DecidableEq b] (ops : ScalarOps b)
    (args : AccArgs b) (net : NetData b) (bval : b) (st : AccState b) (o : ℕ)
    (d : ℕ) :
    (perOrigin ops args net bval st o).closest d = st.closest d ∨
      ∃ dd, (d, dd) ∈ net.turn_o_scope o ∧
        (perOrigin ops args net bval st o).closest d = some (o, dd) := by
  cases hR : args.reach <;> cases hG : args.gravity <;>
    · simp only [perOrigin, hR, hG, Bool.false_eq_true, if_false, if_true]
      exact foldl_destStep_closest_shape ops args bval o _ _ d

/-! The origin fold of phase 1. -/

theorem foldl_perOrigin_graph {b : Type} [DecidableEq b] (ops : ScalarOps b)
    (args : AccArgs b) (net : NetData b) (bval : b) :
    ∀ (os : List ℕ) (st : AccState b),
      (∀ o ∈ os, spliceEdge (net.splice o) ∈ st.graph.edges) →
      (os.foldl (perOrigin ops args net bval) st).graph = st.graph
  | [], _, _ => rfl
  | o :: os, st, h => by
    rw [List.foldl_cons]
    have hg : (perOrigin ops args net bval st o).graph = st.graph :=
      perOrigin_graph ops args net bval st o (h o (by simp))
    rw [foldl_perOrigin_graph ops args net bval os _
      (fun o2 ho2 => by rw [hg]; exact h o2 (by simp [ho2])), hg]

theorem foldl_perOrigin_reachW_notin {b : Type} [DecidableEq b] (ops : ScalarOps b)
    (args : AccArgs b) (net : NetData b) (bval : b) (o : ℕ) :
    ∀ (os : List ℕ) (st : AccState b), o ∉ os →
      (os.foldl (perOrigin ops args net bval) st).reachW o = st.reachW o
  | [], _, _ => rfl
  | o1 :: os, st, h => by
    rw [List.foldl_cons,
      foldl_perOrigin_reachW_notin ops args net bval o os _ (fun hc => h (by simp [hc])),
      perOrigin_reachW_ne ops args net bval st o1 (fun hc => h (by simp [hc]))]

theorem foldl_perOrigin_gravW_notin {b : Type} [DecidableEq b] (ops : ScalarOps b)
    (args : AccArgs b) (net : NetData b) (bval : b) (o : ℕ) :
    ∀ (os : List ℕ) (st : AccState b), o ∉ os →
      (os.foldl (perOrigin ops args net bval) st).gravW o = st.gravW o
  | [], _, _ => rfl
  | o1 :: os, st, h => by
    rw [List.foldl_cons,
      foldl_perOrigin_gravW_notin ops args net bval o os _ (fun hc => h (by simp [hc])),
      perOrigin_gravW_ne ops args net bval st o1 (fun hc => h (by simp [hc]))]

theorem foldl_perOrigin_reachW_mem {b : Type} [DecidableEq b] (ops : ScalarOps b)
    (args : AccArgs b) (net : NetData b) (bval : b) (o : ℕ)
    (hr : args.reach = true)
    (hknd : ((net.turn_o_scope o).map Prod.fst).Nodup) :
    ∀ (os : List ℕ) (st : AccState b), o ∈ os → os.Nodup →
      (os.foldl (perOrigin ops args net bval) st).reachW o =
        some (some (sumFiltered ops
          ((net.turn_o_scope o).map (fun p => dWeight ops args p.1))))
  | [], _, h, _ => absurd h (List.not_mem_nil o)
  | o1 :: os, st, hmem, hnd => by
    rw [List.foldl_cons]
    by_cases ho : o1 = o
    · subst ho
      rw [foldl_perOrigin_reachW_notin ops args net bval o1 os _
          (List.nodup_cons.mp hnd).1,
        perOrigin_reachW_self ops args net bval st o1 hr hknd]
    · have hmem2 : o ∈ os := by
        rcases List.mem_cons.mp hmem with h | h
        · exact absurd h.symm ho
        · exact h
      exact foldl_perOrigin_reachW_mem ops args net bval o hr hknd os _ hmem2
        (List.nodup_cons.mp hnd).2

theorem foldl_perOrigin_gravW_mem {b : Type} [DecidableEq b] (ops : ScalarOps b)
    (args : AccArgs b) (net : NetData b) (bval : b) (o : ℕ)
    (hg : args.gravity = true)
    (hknd : ((net.turn_o_scope o).map Prod.fst).Nodup) :
    ∀ (os : List ℕ) (st : AccState b), o ∈ os → os.Nodup →
      (os.foldl (perOrigin ops args net bval) st).gravW o =
        some (some (sumFiltered ops
          ((net.turn_o_scope o).map (fun p =>
            gravContrib ops (dWeight ops args p.1) args.alpha bval p.2))))
  | [], _, h, _ => absurd h (List.not_mem_nil o)
  | o1 :: os, st, hmem, hnd => by
    rw [List.foldl_cons]
    by_cases ho : o1 = o
    · subst ho
      rw [foldl_perOrigin_gravW_notin ops args net bval o1 os _
          (List.nodup_cons.mp hnd).1,
        perOrigin_gravW_self ops args net bval st o1 hg hknd]
    · have hmem2 : o ∈ os := by
        rcases List.mem_cons.mp hmem with h | h
        · exact absurd h.symm ho
        · exact h
      exact foldl_perOrigin_gravW_mem ops args net bval o hg hknd os _ hmem2
        (List.nodup_cons.mp hnd).2

theorem perOrigin_inv_step {b : Type} [DecidableEq b] (ops : ScalarOps b)
    (args : AccArgs b) (net : NetData b) (bval : b) (dist : ℕ → ℕ → b)
    (os : List ℕ) (st : AccState b) (o : ℕ)
    (hInv : ClosestInv ops args net bval dist (o :: os) st)
    (hknd : ((net.turn_o_scope o).map Prod.fst).Nodup)
    (hdist : ∀ p ∈ net.turn_o_scope o, p.2 = dist o p.1)
    (hnotin : o ∉ os) :
    ClosestInv ops args net bval dist os (perOrigin ops args net bval st o) := by
  intro d o1 q hq
  rcases perOrigin_closest_shape ops args net bval st o d with hsame | ⟨dd, hdd, hres⟩
  · rw [hsame] at hq
    obtain ⟨hno, hqd, hmem, hlr, hlg⟩ := hInv d o1 q hq
    have ho1 : o1 ≠ o := by
      intro h
      exact hno (h ▸ List.mem_cons_self o os)
    refine ⟨fun hc => hno (List.mem_cons_of_mem o hc), hqd, hmem, ?_, ?_⟩
    · intro hrr
      rw [perOrigin_reachesTbl_ne ops args net bval st o ho1]
      exact hlr hrr
    · intro hgg
      rw [perOrigin_gravTbl_ne ops args net bval st o ho1]
      exact hlg hgg
  · rw [hres] at hq
    have hpair : o = o1 ∧ dd = q := by
      have := Option.some.inj hq
      exact ⟨congrArg Prod.fst this, congrArg Prod.snd this⟩
    obtain ⟨ho1, hddq⟩ := hpair
    subst ho1
    subst hddq
    have hdval : dd = dist o d := by
      have := hdist (d, dd) hdd
      simpa using this
    refine ⟨hnotin, hdval, List.mem_map.mpr ⟨(d, dd), hdd, rfl⟩, ?_, ?_⟩
    · intro hrr
      rw [perOrigin_reachesTbl_self ops args net bval st o hknd, hrr, if_pos rfl]
      exact lookup_map_key (fun k => dWeight ops args k) (net.turn_o_scope o) d
        (List.mem_map.mpr ⟨(d, dd), hdd, rfl⟩)
    · intro hgg
      rw [perOrigin_gravTbl_self ops args net bval st o hknd, hgg, if_pos rfl]
      have hmapeq : (net.turn_o_scope o).map (fun p =>
          (p.1, gravContrib ops (dWeight ops args p.1) args.alpha bval p.2)) =
          (net.turn_o_scope o).map (fun p =>
          (p.1, gravContrib ops (dWeight ops args p.1) args.alpha bval (dist o p.1))) := by
        apply List.map_congr_left
        intro p hp
        rw [hdist p hp]
      rw [hmapeq]
      exact lookup_map_key
        (fun k => gravContrib ops (dWeight ops args k) args.alpha bval (dist o k))
        (net.turn_o_scope o) d (List.mem_map.mpr ⟨(d, dd), hdd, rfl⟩)

theorem foldl_perOrigin_inv {b : Type} [DecidableEq b] (ops : ScalarOps b)
    (args : AccArgs b) (net : NetData b) (bval : b) (dist : ℕ → ℕ → b)
    (hknd : ∀ o, ((net.turn_o_scope o).map Prod.fst).Nodup)
    (hdist : ∀ o, ∀ p ∈ net.turn_o_scope o, p.2 = dist o p.1) :
    ∀ (os : List ℕ) (st : AccState b),
      ClosestInv ops args net bval dist os st → os.Nodup →
      ClosestInv ops args net bval dist [] (os.foldl (perOrigin ops args net bval) st)
  | [], st, hInv, _ => by
    rw [List.foldl_nil]
    exact hInv
  | o :: os, st, hInv, hnd => by
    rw [List.foldl_cons]
    exact foldl_perOrigin_inv ops args net bval dist hknd hdist os _
      (perOrigin_inv_step ops args net bval dist os st o hInv (hknd o) (hdist o)
        (List.nodup_cons.mp hnd).1)
      (List.nodup_cons.mp hnd).2

/-! The closest-facility recompute pass. -/

theorem phase2Origin_eq {b : Type} (ops : ScalarOps b) (args : AccArgs b)
    (net : NetData b) (bval : b) (dist : ℕ → ℕ → b) (st : AccState b) (o : ℕ)
    (hInv : ClosestInv ops args net bval dist [] st) :
    phase2Origin ops args net st o =
      ({ st with
          reachW := if args.reach then
              upd st.reachW o (some (pySum ops
                ((assignedTo net st o).map (fun d => dWeight ops args d))))
            else st.reachW,
          gravW := if args.gravity then
              upd st.gravW o (some (pySum ops
                ((assignedTo net st o).map (fun d =>
                  gravContrib ops (dWeight ops args d) args.alpha bval (dist o d)))))
            else st.gravW }, none) := by
  have hclosest : ∀ d ∈ assignedTo net st o, st.closest d = some (o, dist o d) := by
    intro d hd
    simp only [assignedTo, List.mem_filter] at hd
    obtain ⟨-, hd2⟩ := hd
    cases hc : st.closest d with
    | none => rw [hc] at hd2; simp at hd2
    | some q =>
      rw [hc] at hd2
      cases q with
      | mk o1 qq =>
        have ho1 : o1 = o := by simpa using hd2
        subst ho1
        obtain ⟨-, hq, -, -, -⟩ := hInv d o1 qq hc
        rw [← hq]
  have hlr : args.reach = true →
      lookupAll (st.reachesTbl o) (assignedTo net st o) =
        some ((assignedTo net st o).map (fun d => dWeight ops args d)) := by
    intro hrr
    exact lookupAll_map _ _ _ (fun d hd =>
      (hInv d o (dist o d) (hclosest d hd)).2.2.2.1 hrr)
  have hlg : args.gravity = true →
      lookupAll (st.gravTbl o) (assignedTo net st o) =
        some ((assignedTo net st o).map (fun d =>
          gravContrib ops (dWeight ops args d) args.alpha bval (dist o d))) := by
    intro hgg
    exact lookupAll_map _ _ _ (fun d hd => by
      have := (hInv d o (dist o d) (hclosest d hd)).2.2.2.2 hgg
      rw [this])
  cases hR : args.reach with
  | false =>
    cases hG : args.gravity with
    | false => simp [phase2Origin, hR, hG]
    | true => simp [phase2Origin, hR, hG, hlg hG]
  | true =>
    cases hG : args.gravity with
    | false => simp [phase2Origin, hR, hG, hlr hR]
    | true => simp [phase2Origin, hR, hG, hlr hR, hlg hG]

theorem phase2_cons {b : Type} (ops : ScalarOps b) (args : AccArgs b)
    (net : NetData b) (o : ℕ) (os : List ℕ) (st st1 : AccState b)
    (hstep : phase2Origin ops args net st o = (st1, none)) :
    phase2 ops args net (o :: os) st = phase2 ops args net os st1 := by
  simp only [phase2, List.foldl_cons]
  rw [hstep]

theorem phase2_spec {b : Type} (ops : ScalarOps b) (args : AccArgs b)
    (net : NetData b) (bval : b) (dist : ℕ → ℕ → b) :
    ∀ (os : List ℕ) (st : AccState b),
      ClosestInv ops args net bval dist [] st → os.Nodup →
      (phase2 ops args net os st).2 = none ∧
      (phase2 ops args net os st).1.closest = st.closest ∧
      (phase2 ops args net os st).1.graph = st.graph ∧
      (∀ q, q ∉ os → (phase2 ops args net os st).1.reachW q = st.reachW q) ∧
      (∀ q, q ∉ os → (phase2 ops args net os st).1.gravW q = st.gravW q) ∧
      (∀ o ∈ os,
        (args.reach = true → (phase2 ops args net os st).1.reachW o =
          some (pySum ops ((assignedTo net st o).map (fun d => dWeight ops args d)))) ∧
        (args.gravity = true → (phase2 ops args net os st).1.gravW o =
          some (pySum ops ((assignedTo net st o).map (fun d =>
            gravContrib ops (dWeight ops args d) args.alpha bval (dist o d))))))
  | [], st, _, _ => by
    refine ⟨rfl, rfl, rfl, fun q _ => rfl, fun q _ => rfl, fun o ho => absurd ho ?_⟩
    exact List.not_mem_nil o
  | o :: os, st, hInv, hnd => by
    have hstep := phase2Origin_eq ops args net bval dist st o hInv
    have hph := phase2_cons ops args net o os st _ hstep
    have hInv1 : ClosestInv ops args net bval dist []
        ({ st with
            reachW := if args.reach then
                upd st.reachW o (some (pySum ops
                  ((assignedTo net st o).map (fun d => dWeight ops args d))))
              else st.reachW,
            gravW := if args.gravity then
                upd st.gravW o (some (pySum ops
                  ((assignedTo net st o).map (fun d =>
                    gravContrib ops (dWeight ops args d) args.alpha bval (dist o d)))))
              else st.gravW }) := fun d o1 q hq => hInv d o1 q hq
    obtain ⟨ih1, ih2, ih3, ih4, ih5, ih6⟩ :=
      phase2_spec ops args net bval dist os _ hInv1 (List.nodup_cons.mp hnd).2
    have hnotin : o ∉ os := (List.nodup_cons.mp hnd).1
    rw [hph]
    refine ⟨ih1, by exact ih2, by exact ih3, ?_, ?_, ?_⟩
    · intro q hq
      have hq1 : q ∉ os := fun hc => hq (by simp [hc])
      have hq2 : q ≠ o := fun hc => hq (by simp [hc])
      rw [ih4 q hq1]
      cases hR : args.reach <;> simp [hR, upd_ne _ _ _ hq2]
    · intro q hq
      have hq1 : q ∉ os := fun hc => hq (by simp [hc])
      have hq2 : q ≠ o := fun hc => hq (by simp [hc])
      rw [ih5 q hq1]
      cases hG : args.gravity <;> simp [hG, upd_ne _ _ _ hq2]
    · intro o2 ho2
      rcases List.mem_cons.mp ho2 with ho2 | ho2
      · subst ho2
        constructor
        · intro hR
          rw [ih4 o2 hnotin]
          simp [hR, upd_same]
        · intro hG
          rw [ih5 o2 hnotin]
          simp [hG, upd_same]
      · obtain ⟨ihr, ihg⟩ := ih6 o2 ho2
        exact ⟨fun hR => ihr hR, fun hG => ihg hG⟩

/-! Assembling accessibility from its phases. -/

theorem accessLoop_false {b : Type} [DecidableEq b] (ops : ScalarOps b)
    (args : AccArgs b) (net : NetData b) (os1 os2 : List ℕ) (st : AccState b)
    (hcf : args.closestFacility = false) :
    accessLoop ops args net os1 os2 st =
      (os1.foldl (perOrigin ops args net (args.beta.getD ops.zeroB))
        { st with reachesTbl := fun _ => [], gravTbl := fun _ => [] }, none) := by
  simp [accessLoop, hcf]

theorem accessLoop_true {b : Type} [DecidableEq b] (ops : ScalarOps b)
    (args : AccArgs b) (net : NetData b) (os1 os2 : List ℕ) (st : AccState b)
    (hcf : args.closestFacility = true) :
    accessLoop ops args net os1 os2 st =
      phase2 ops args net os2
        (os1.foldl (perOrigin ops args net (args.beta.getD ops.zeroB))
          { st with reachesTbl := fun _ => [], gravTbl := fun _ => [] }) := by
  simp [accessLoop, hcf]

theorem accessibility_guard_false {b : Type} [DecidableEq b] (ops : ScalarOps b)
    (args : AccArgs b) (net : NetData b) (st : AccState b)
    (h : (args.gravity && args.beta.isNone) = false) :
    accessibility ops args net st = accessLoop ops args net net.origins net.origins st := by
  simp [accessibility, h]

theorem single_accessibility_guard_false {b : Type} [DecidableEq b] (ops : ScalarOps b)
    (args : AccArgs b) (net : NetData b) (ws : List ℕ) (st : AccState b)
    (h : (args.gravity && args.beta.isNone) = false) :
    single_accessibility ops args net ws st = accessLoop ops args net ws net.origins st := by
  simp [single_accessibility, h]

theorem phase2Origin_graph {b : Type} (ops : ScalarOps b) (args : AccArgs b)
    (net : NetData b) (st : AccState b) (o : ℕ) :
    (phase2Origin ops args net st o).1.graph = st.graph := by
  unfold phase2Origin
  cases hR : args.reach <;> cases hG : args.gravity <;>
    simp only [hR, hG, Bool.false_eq_true, if_false, if_true] <;>
    cases h1 : lookupAll (st.reachesTbl o) (assignedTo net st o) <;>
    cases h2 : lookupAll (st.gravTbl o) (assignedTo net st o) <;>
    simp [h1, h2]

theorem phase2_foldl_error {b : Type} (ops : ScalarOps b) (args : AccArgs b)
    (net : NetData b) :
    ∀ (os : List ℕ) (st : AccState b) (e : AccErr),
      os.foldl (fun acc o2 =>
        match acc with
        | (st1, some e1) => (st1, some e1)
        | (st1, none) => phase2Origin ops args net st1 o2) (st, some e) = (st, some e)
  | [], _, _ => rfl
  | o :: os, st, e => by
    rw [List.foldl_cons]
    exact phase2_foldl_error ops args net os st e

theorem phase2_graph {b : Type} (ops : ScalarOps b) (args : AccArgs b)
    (net : NetData b) :
    ∀ (os : List ℕ) (st : AccState b),
      (phase2 ops args net os st).1.graph = st.graph
  | [], _ => rfl
  | o :: os, st => by
    have hg := phase2Origin_graph ops args net st o
    cases hstep : phase2Origin ops args net st o with
    | mk st1 e =>
      rw [hstep] at hg
      cases e with
      | none =>
        rw [phase2_cons ops args net o os st st1 hstep,
          phase2_graph ops args net os st1]
        exact hg
      | some e1 =>
        have : phase2 ops args net (o :: os) st = (st1, some e1) := by
          simp only [phase2, List.foldl_cons]
          rw [hstep]
          exact phase2_foldl_error ops args net os st1 e1
        rw [this]
        exact hg

theorem accessLoop_graph {b : Type} [DecidableEq b] (ops : ScalarOps b)
    (args : AccArgs b) (net : NetData b) (os1 os2 : List ℕ) (st : AccState b)
    (h : ∀ o ∈ os1, spliceEdge (net.splice o) ∈ st.graph.edges) :
    (accessLoop ops args net os1 os2 st).1.graph = st.graph := by
  have hfold := foldl_perOrigin_graph ops args net (args.beta.getD ops.zeroB) os1
    { st with reachesTbl := fun _ => [], gravTbl := fun _ => [] } h
  cases hcf : args.closestFacility with
  | false =>
    rw [accessLoop_false ops args net os1 os2 st hcf]
    exact hfold
  | true =>
    rw [accessLoop_true ops args net os1 os2 st hcf, phase2_graph]
    exact hfold

/-! Sum and contribution lemmas over the real instantiation. -/

theorem real_foldl_add_sum (l : List ℝ) :
    l.foldl realOps.addB realOps.zeroB = l.sum := by
  show l.foldl (fun a x => a + x) 0 = l.sum
  exact (List.sum_eq_foldl).symm

theorem sumFiltered_map_real {c : Type} (l : List c) (F : c → Option ℝ) :
    sumFiltered realOps (l.map F) = (l.filterMap F).sum := by
  show ((l.map F).filterMap id).foldl realOps.addB realOps.zeroB = _
  rw [List.filterMap_map, real_foldl_add_sum]
  rfl

theorem gravContrib_some_real (w alpha bv dd : ℝ) :
    gravContrib realOps (some w) alpha bv dd =
      some (w ^ alpha / Real.exp (bv * dd)) := by
  show some ((w ^ alpha) / ((Real.exp 1) ^ (bv * dd))) = _
  rw [Real.exp_one_rpow]

theorem gravContrib_none_real (alpha bv dd : ℝ) (halpha : alpha ≠ 0) :
    gravContrib realOps none alpha bv dd = none := by
  simp [gravContrib, pyPow, realOps, halpha]

theorem gravContrib_map_real (alpha bv dd : ℝ) (halpha : alpha ≠ 0)
    (dw : Option ℝ) :
    gravContrib realOps dw alpha bv dd =
      dw.map (fun wv => wv ^ alpha / Real.exp (bv * dd)) := by
  cases dw with
  | none => rw [gravContrib_none_real alpha bv dd halpha]; rfl
  | some w => rw [gravContrib_some_real]; rfl

theorem assignedTo_congr {b : Type} (net : NetData b) {st1 st2 : AccState b}
    (h : st1.closest = st2.closest) (o : ℕ) :
    assignedTo net st1 o = assignedTo net st2 o := by
  unfold assignedTo
  rw [h]

/-- C5: calling accessibility or single_accessibility with gravity=True and
beta=None raises the configuration ValueError synchronously, before any
origin is processed, and leaves the state (and so the node table) exactly as
it was (tools.py lines 29-30 and 468-469). -/
theorem C5_gravity_without_beta_raises
    (args : AccArgs ℝ) (net : NetData ℝ) (st : AccState ℝ) (ws : List ℕ)
    (hg : args.gravity = true) (hb : args.beta = none) :
    accessibility realOps args net st = (st, some AccErr.valueErrorBeta) ∧
    single_accessibility realOps args net ws st = (st, some AccErr.valueErrorBeta) := by
  constructor <;> simp [accessibility, single_accessibility, hg, hb]

theorem C5_witness :
    accessibility realOps tArgsNoBeta tNet tState = (tState, some AccErr.valueErrorBeta) ∧
    single_accessibility realOps tArgsNoBeta tNet [10] tState =
      (tState, some AccErr.valueErrorBeta) :=
  C5_gravity_without_beta_raises tArgsNoBeta tNet tState [10] rfl rfl

/-- C9: the closest_facility wrapper is observationally equivalent to calling
accessibility with closest_facility=True: it returns the same state and
raises the same ValueError when gravity is requested without beta
(tools.py lines 180-202). -/
theorem C9_closest_facility_refines_accessibility
    (args : AccArgs ℝ) (net : NetData ℝ) (st : AccState ℝ) :
    closest_facility realOps args net st =
      accessibility realOps { args with closestFacility := true } net st := by
  by_cases h : args.gravity = true ∧ args.beta = none
  · obtain ⟨hg, hb⟩ := h
    simp [closest_facility, accessibility, hg, hb]
  · have hguard : (args.gravity && args.beta.isNone) = false := by
      cases hg : args.gravity with
      | false => simp
      | true =>
        cases hb : args.beta with
        | none => exact absurd ⟨hg, hb⟩ h
        | some bv => simp [hb]
    simp [closest_facility, hguard]

/-- C3: in closest-facility assignment, the recorded closest origin of a
destination is overwritten during a later origin pass only when the new
distance is strictly smaller; at exactly equal distance the first-processed
origin keeps the assignment (tools.py lines 68-74 and 514-520). -/
theorem C3_closest_overwrite_only_strictly_smaller
    (args : AccArgs ℝ) (net : NetData ℝ) (bval : ℝ) (st : AccState ℝ)
    (o2 d o1 : ℕ) (d1 : ℝ)
    (hcur : st.closest d = some (o1, d1))
    (hge : ∀ p ∈ net.turn_o_scope o2, p.1 = d → ¬ (p.2 < d1)) :
    (perOrigin realOps args net bval st o2).closest d = some (o1, d1) :=
  perOrigin_closest_preserve realOps args net bval st o2 d o1 d1 hcur
    (fun p hp hpd => decide_eq_false (hge p hp hpd))

theorem C3_witness :
    (perOrigin realOps tArgsCF tNet 0 tStateC3 10).closest 20 = some (5, (7 : ℝ)) :=
  C3_closest_overwrite_only_strictly_smaller tArgsCF tNet 0 tStateC3 10 20 5 7 rfl
    (by
      intro p hp hpd
      simp [tNet] at hp
      subst hp
      norm_num)

/-- C1: every per-origin search in accessibility (and in the worker body
single_accessibility, whose loop uses the same splice bracket) is bracketed
by add_node_to_graph and remove_node_to_graph on the shared d view, and the
removal restores the view exactly: removing a just-added origin returns the
same vertex multiset, edge multiset and weights, and a whole run leaves the
d view equal to its initial state (tools.py lines 42-55 and 486-499;
add_node_to_graph and remove_node_to_graph modelled from spec section 4.3
since madina/zonal/network.py is absent from src). -/
theorem C1_splice_bracket_restores_view
    (args : AccArgs ℝ) (net : NetData ℝ) (st : AccState ℝ) (ws : List ℕ)
    (hpre : ∀ o ∈ net.origins, spliceEdge (net.splice o) ∈ st.graph.edges)
    (hws : ∀ o ∈ ws, spliceEdge (net.splice o) ∈ st.graph.edges) :
    (∀ (g : SGraph ℝ) (si : SpliceInfo ℝ) (o : ℕ), spliceEdge si ∈ g.edges →
        remove_node_to_graph si o (add_node_to_graph si o g) = g) ∧
    (accessibility realOps args net st).1.graph = st.graph ∧
    (single_accessibility realOps args net ws st).1.graph = st.graph := by
  refine ⟨fun g si o h => remove_add_node_restore si o g h, ?_, ?_⟩
  · cases hguard : (args.gravity && args.beta.isNone) with
    | true => simp [accessibility, hguard]
    | false =>
      rw [accessibility_guard_false realOps args net st hguard]
      exact accessLoop_graph realOps args net net.origins net.origins st hpre
  · cases hguard : (args.gravity && args.beta.isNone) with
    | true => simp [single_accessibility, hguard]
    | false =>
      rw [single_accessibility_guard_false realOps args net ws st hguard]
      exact accessLoop_graph realOps args net ws net.origins st hws

theorem C1_witness :
    ((∀ (g : SGraph ℝ) (si : SpliceInfo ℝ) (o : ℕ), spliceEdge si ∈ g.edges →
        remove_node_to_graph si o (add_node_to_graph si o g) = g) ∧
    (accessibility realOps tArgsPlain tNet tState).1.graph = tState.graph ∧
    (single_accessibility realOps tArgsPlain tNet [10] tState).1.graph = tState.graph) :=
  C1_splice_bracket_restores_view tArgsPlain tNet tState [10]
    (by
      intro o ho
      simp [tNet, tState, tGraph, spliceEdge, tSplice])
    (by
      intro o ho
      simp [tNet, tState, tGraph, spliceEdge, tSplice])

theorem filterMap_some_eq_map {a1 b1 : Type} (l : List a1) (f : a1 → b1) :
    l.filterMap (fun x => some (f x)) = l.map f := by
  induction l with
  | nil => rfl
  | cons x l ih => simp [List.filterMap_cons, ih]

/-- C2: for an origin o (search run with detour_ratio=1 and turn_penalty off),
when every reached destination has the plain weight w d (the named attribute,
or 1 when no weight is given), the written una_gravity of o is the sum over
reached destinations of w^alpha / e^(beta*dist), and the written una_reach is
the sum of the weights (tools.py lines 58-80 and 504-526). -/
theorem C2_reach_gravity_formulas
    (args : AccArgs ℝ) (net : NetData ℝ) (st : AccState ℝ) (o : ℕ)
    (w : ℕ → ℝ) (bv : ℝ)
    (hr : args.reach = true) (hg : args.gravity = true)
    (hcf : args.closestFacility = false) (hb : args.beta = some bv)
    (hw : ∀ d, dWeight realOps args d = some (w d))
    (ho : o ∈ net.origins) (hnd : net.origins.Nodup)
    (hknd : ((net.turn_o_scope o).map Prod.fst).Nodup) :
    (accessibility realOps args net st).2 = none ∧
    (accessibility realOps args net st).1.reachW o =
      some (some (((net.turn_o_scope o).map (fun p => w p.1)).sum)) ∧
    (accessibility realOps args net st).1.gravW o =
      some (some (((net.turn_o_scope o).map
        (fun p => w p.1 ^ args.alpha / Real.exp (bv * p.2))).sum)) := by
  have hguard : (args.gravity && args.beta.isNone) = false := by simp [hb]
  have hbval : args.beta.getD realOps.zeroB = bv := by rw [hb]; rfl
  rw [accessibility_guard_false realOps args net st hguard,
    accessLoop_false realOps args net net.origins net.origins st hcf]
  refine ⟨rfl, ?_, ?_⟩
  · rw [foldl_perOrigin_reachW_mem realOps args net (args.beta.getD realOps.zeroB)
      o hr hknd net.origins _ ho hnd]
    rw [show (fun p : ℕ × ℝ => dWeight realOps args p.1) =
        (fun p : ℕ × ℝ => some (w p.1)) from funext (fun p => hw p.1)]
    rw [show sumFiltered realOps ((net.turn_o_scope o).map (fun p : ℕ × ℝ => some (w p.1))) =
        ((net.turn_o_scope o).filterMap (fun p : ℕ × ℝ => some (w p.1))).sum from
      sumFiltered_map_real _ _]
    rw [filterMap_some_eq_map]
  · rw [foldl_perOrigin_gravW_mem realOps args net (args.beta.getD realOps.zeroB)
      o hg hknd net.origins _ ho hnd, hbval]
    rw [show (fun p : ℕ × ℝ =>
          gravContrib realOps (dWeight realOps args p.1) args.alpha bv p.2) =
        (fun p : ℕ × ℝ => some (w p.1 ^ args.alpha / Real.exp (bv * p.2))) from
      funext (fun p => by rw [hw p.1, gravContrib_some_real])]
    rw [show sumFiltered realOps ((net.turn_o_scope o).map
          (fun p : ℕ × ℝ => some (w p.1 ^ args.alpha / Real.exp (bv * p.2)))) =
        ((net.turn_o_scope o).filterMap
          (fun p : ℕ × ℝ => some (w p.1 ^ args.alpha / Real.exp (bv * p.2)))).sum from
      sumFiltered_map_real _ _]
    rw [filterMap_some_eq_map]

theorem C2_witness :
    (accessibility realOps tArgsRG tNet tState).2 = none ∧
    (accessibility realOps tArgsRG tNet tState).1.reachW 10 =
      some (some (((tNet.turn_o_scope 10).map (fun _ => (1 : ℝ))).sum)) ∧
    (accessibility realOps tArgsRG tNet tState).1.gravW 10 =
      some (some (((tNet.turn_o_scope 10).map
        (fun p => (1 : ℝ) ^ tArgsRG.alpha / Real.exp (0 * p.2))).sum)) :=
  C2_reach_gravity_formulas tArgsRG tNet tState 10 (fun _ => 1) 0 rfl rfl rfl rfl
    (fun _ => rfl) (by simp [tNet]) (by simp [tNet]) (by simp [tNet])

/-- C10 (amended): with closest_facility off, a reached destination whose
weight is NaN contributes nothing to the written una_reach, and nothing to
the written una_gravity provided alpha is nonzero; the written values equal
the sums over the reached destinations whose per-destination contribution is
not NaN (tools.py lines 76-80 and 522-526).  When alpha = 0, the Python
value pow(nan, 0) = 1.0 turns the gravity contribution of a NaN-weight destination
into 1/e^(beta*dist), which the np.isnan filter keeps; see the
counterexample. -/
theorem C10_nan_weight_filtered
    (args : AccArgs ℝ) (net : NetData ℝ) (st : AccState ℝ) (o : ℕ) (bv : ℝ)
    (hcf : args.closestFacility = false) (hb : args.beta = some bv)
    (halpha : args.alpha ≠ 0)
    (ho : o ∈ net.origins) (hnd : net.origins.Nodup)
    (hknd : ((net.turn_o_scope o).map Prod.fst).Nodup) :
    (accessibility realOps args net st).2 = none ∧
    (args.reach = true →
      (accessibility realOps args net st).1.reachW o =
        some (some (((net.turn_o_scope o).filterMap
          (fun p => dWeight realOps args p.1)).sum))) ∧
    (args.gravity = true →
      (accessibility realOps args net st).1.gravW o =
        some (some (((net.turn_o_scope o).filterMap (fun p =>
          (dWeight realOps args p.1).map
            (fun wv => wv ^ args.alpha / Real.exp (bv * p.2)))).sum))) := by
  have hguard : (args.gravity && args.beta.isNone) = false := by simp [hb]
  have hbval : args.beta.getD realOps.zeroB = bv := by rw [hb]; rfl
  rw [accessibility_guard_false realOps args net st hguard,
    accessLoop_false realOps args net net.origins net.origins st hcf]
  refine ⟨rfl, ?_, ?_⟩
  · intro hr
    rw [foldl_perOrigin_reachW_mem realOps args net (args.beta.getD realOps.zeroB)
      o hr hknd net.origins _ ho hnd]
    rw [show sumFiltered realOps ((net.turn_o_scope o).map
          (fun p : ℕ × ℝ => dWeight realOps args p.1)) =
        ((net.turn_o_scope o).filterMap (fun p : ℕ × ℝ => dWeight realOps args p.1)).sum from
      sumFiltered_map_real _ _]
  · intro hg
    rw [foldl_perOrigin_gravW_mem realOps args net (args.beta.getD realOps.zeroB)
      o hg hknd net.origins _ ho hnd, hbval]
    rw [show (fun p : ℕ × ℝ =>
          gravContrib realOps (dWeight realOps args p.1) args.alpha bv p.2) =
        (fun p : ℕ × ℝ => (dWeight realOps args p.1).map
          (fun wv => wv ^ args.alpha / Real.exp (bv * p.2))) from
      funext (fun p => gravContrib_map_real args.alpha bv p.2 halpha _)]
    rw [show sumFiltered realOps ((net.turn_o_scope o).map
          (fun p : ℕ × ℝ => (dWeight realOps args p.1).map
            (fun wv => wv ^ args.alpha / Real.exp (bv * p.2)))) =
        ((net.turn_o_scope o).filterMap (fun p : ℕ × ℝ =>
          (dWeight realOps args p.1).map
            (fun wv => wv ^ args.alpha / Real.exp (bv * p.2)))).sum from
      sumFiltered_map_real _ _]

theorem C10_witness :
    (accessibility realOps tArgsRG tNet tState).2 = none ∧
    (tArgsRG.reach = true →
      (accessibility realOps tArgsRG tNet tState).1.reachW 10 =
        some (some (((tNet.turn_o_scope 10).filterMap
          (fun p => dWeight realOps tArgsRG p.1)).sum))) ∧
    (tArgsRG.gravity = true →
      (accessibility realOps tArgsRG tNet tState).1.gravW 10 =
        some (some (((tNet.turn_o_scope 10).filterMap (fun p =>
          (dWeight realOps tArgsRG p.1).map
            (fun wv => wv ^ tArgsRG.alpha / Real.exp (0 * p.2)))).sum))) :=
  C10_nan_weight_filtered tArgsRG tNet tState 10 0 rfl rfl
    (by norm_num [tArgsRG]) (by simp [tNet]) (by simp [tNet]) (by simp [tNet])

/-- C10 counterexample: with alpha = 0 and every destination weight NaN, the
written una_gravity of origin 10 is 1 (since pow(nan, 0) = 1.0 and
e^(0*7) = 1), not the sum 0 over the destinations with non-NaN contribution
as the claim would have it. -/
theorem C10_counterexample :
    (accessibility realOps tArgsC10 tNet tState).1.gravW 10 ≠
      some (some (((tNet.turn_o_scope 10).filterMap (fun p =>
        (dWeight realOps tArgsC10 p.1).map
          (fun wv => wv ^ tArgsC10.alpha / Real.exp (0 * p.2)))).sum)) := by
  have hguard : (tArgsC10.gravity && tArgsC10.beta.isNone) = false := rfl
  rw [accessibility_guard_false realOps tArgsC10 tNet tState hguard,
    accessLoop_false realOps tArgsC10 tNet tNet.origins tNet.origins tState rfl]
  rw [foldl_perOrigin_gravW_mem realOps tArgsC10 tNet
    (tArgsC10.beta.getD realOps.zeroB) 10 rfl (by simp [tNet]) tNet.origins _
    (by simp [tNet]) (by simp [tNet])]
  simp only [tNet, tArgsC10, dWeight, sumFiltered, gravContrib, pyPow, realOps]
  norm_num [Real.rpow_zero, List.filterMap_cons, List.filterMap_nil]

theorem mem_assignedTo {b : Type} (net : NetData b) (st : AccState b) (o d : ℕ)
    (hd : d ∈ assignedTo net st o) : ∃ q, st.closest d = some (o, q) := by
  simp only [assignedTo, List.mem_filter] at hd
  obtain ⟨-, h2⟩ := hd
  cases hc : st.closest d with
  | none => rw [hc] at h2; simp at h2
  | some q =>
    cases q with
    | mk o1 qq =>
      rw [hc] at h2
      have ho1 : o1 = o := by simpa using h2
      subst ho1
      exact ⟨qq, rfl⟩

/-- C4: when closest_facility is requested together with reach or gravity,
after all origins are processed the written una_reach and una_gravity of
every origin o are recomputed as the (unfiltered) sums over exactly the
destinations whose recorded closest origin is o - destinations assigned to
other origins contribute nothing - and every such assigned destination is one
that o reached (tools.py lines 82-88 and 528-534). -/
theorem C4_closest_facility_recompute
    (args : AccArgs ℝ) (net : NetData ℝ) (st : AccState ℝ)
    (dist : ℕ → ℕ → ℝ) (o : ℕ)
    (hcf : args.closestFacility = true)
    (hbeta : args.gravity = true → args.beta ≠ none)
    (hfresh : ∀ d, st.closest d = none)
    (hnd : net.origins.Nodup)
    (hknd : ∀ o2, ((net.turn_o_scope o2).map Prod.fst).Nodup)
    (hdist : ∀ o2, ∀ p ∈ net.turn_o_scope o2, p.2 = dist o2 p.1)
    (ho : o ∈ net.origins) :
    (accessibility realOps args net st).2 = none ∧
    (∀ d ∈ assignedTo net (accessibility realOps args net st).1 o,
      d ∈ (net.turn_o_scope o).map Prod.fst) ∧
    (args.reach = true →
      (accessibility realOps args net st).1.reachW o =
        some (pySum realOps
          ((assignedTo net (accessibility realOps args net st).1 o).map
            (fun d => dWeight realOps args d)))) ∧
    (args.gravity = true →
      (accessibility realOps args net st).1.gravW o =
        some (pySum realOps
          ((assignedTo net (accessibility realOps args net st).1 o).map
            (fun d => gravContrib realOps (dWeight realOps args d) args.alpha
              (args.beta.getD 0) (dist o d))))) := by
  have hguard : (args.gravity && args.beta.isNone) = false := by
    cases hg : args.gravity with
    | false => simp
    | true =>
      have hb := hbeta hg
      cases hbb : args.beta with
      | none => exact absurd hbb hb
      | some v => simp [hbb]
  rw [accessibility_guard_false realOps args net st hguard,
    accessLoop_true realOps args net net.origins net.origins st hcf]
  have hInv0 : ClosestInv realOps args net (args.beta.getD realOps.zeroB) dist
      net.origins { st with reachesTbl := fun _ => [], gravTbl := fun _ => [] } := by
    intro d o1 q hq
    have hq2 : st.closest d = some (o1, q) := hq
    rw [hfresh d] at hq2
    exact Option.noConfusion hq2
  have hInv1 : ClosestInv realOps args net (args.beta.getD realOps.zeroB) dist []
      (net.origins.foldl (perOrigin realOps args net (args.beta.getD realOps.zeroB))
        { st with reachesTbl := (fun _ => []), gravTbl := (fun _ => []) }) :=
    foldl_perOrigin_inv realOps args net (args.beta.getD realOps.zeroB) dist hknd hdist
      net.origins _ hInv0 hnd
  obtain ⟨sp1, sp2, sp3, sp4, sp5, sp6⟩ :=
    phase2_spec realOps args net (args.beta.getD realOps.zeroB) dist net.origins _ hInv1 hnd
  have hass := fun o2 => assignedTo_congr net sp2 o2
  refine ⟨sp1, ?_, ?_, ?_⟩
  · intro d hd
    rw [hass o] at hd
    obtain ⟨q, hcl⟩ := mem_assignedTo net _ o d hd
    exact (hInv1 d o q hcl).2.2.1
  · intro hr
    rw [hass o]
    exact (sp6 o ho).1 hr
  · intro hg
    rw [hass o]
    exact (sp6 o ho).2 hg

theorem C4_witness :
    (accessibility realOps tArgsCF tNet tState).2 = none ∧
    (∀ d ∈ assignedTo tNet (accessibility realOps tArgsCF tNet tState).1 10,
      d ∈ (tNet.turn_o_scope 10).map Prod.fst) ∧
    (tArgsCF.reach = true →
      (accessibility realOps tArgsCF tNet tState).1.reachW 10 =
        some (pySum realOps
          ((assignedTo tNet (accessibility realOps tArgsCF tNet tState).1 10).map
            (fun d => dWeight realOps tArgsCF d)))) ∧
    (tArgsCF.gravity = true →
      (accessibility realOps tArgsCF tNet tState).1.gravW 10 =
        some (pySum realOps
          ((assignedTo tNet (accessibility realOps tArgsCF tNet tState).1 10).map
            (fun d => gravContrib realOps (dWeight realOps tArgsCF d) tArgsCF.alpha
              (tArgsCF.beta.getD 0) 7)))) :=
  C4_closest_facility_recompute tArgsCF tNet tState (fun _ _ => 7) 10 rfl
    (fun _ => by simp [tArgsCF, tArgsRG])
    (fun _ => rfl) (by simp [tNet])
    (by intro o2; by_cases h : o2 = 10 <;> simp [tNet, h])
    (by
      intro o2 p hp
      by_cases h : o2 = 10
      · subst h
        simp [tNet] at hp
        subst hp
        rfl
      · simp [tNet, h] at hp)
    (by simp [tNet])

/-- C6: in the parallel orchestrator - with the manager queue modelled by the
per-worker draw sequences parts (each origin drawn by exactly one worker, so
their concatenation is a permutation of the origin list) and each worker
running on its own copy of the state - if any worker raises, the coordinator
re-raises the exception of that worker and returns no rows at all; if every
worker succeeds, the returned value is the concatenation of the per-origin
rows, whose origin ids are exactly the origins, each exactly once
(tools.py lines 387-443 and 477-535). -/
theorem C6_parallel_fail_fast_and_merge
    (args : AccArgs ℝ) (net : NetData ℝ) (st : AccState ℝ) (parts : List (List ℕ))
    (hperm : parts.flatten.Perm net.origins) :
    ((∃ ws ∈ parts, ∃ e, (single_accessibility realOps args net ws st).2 = some e) →
      ∃ e, parallel_accessibility realOps args net parts st = Except.error e ∧
        ∃ ws ∈ parts, (single_accessibility realOps args net ws st).2 = some e) ∧
    ((∀ ws ∈ parts, (single_accessibility realOps args net ws st).2 = none) →
      ∃ rows, parallel_accessibility realOps args net parts st = Except.ok rows ∧
        rows.map (fun r => r.1) = parts.flatten ∧
        (rows.map (fun r => r.1)).Perm net.origins) := by
  constructor
  · rintro ⟨ws, hws, e, he⟩
    have hrows : single_accessibility_rows realOps args net ws st = Except.error e := by
      unfold single_accessibility_rows
      cases hsa : single_accessibility realOps args net ws st with
      | mk st1 e1 =>
        rw [hsa] at he
        cases e1 with
        | none => exact Option.noConfusion he
        | some e2 =>
          have : e2 = e := Option.some.inj he
          subst this
          rfl
    simp only [parallel_accessibility]
    cases hfs : (parts.map
        (fun ws2 => single_accessibility_rows realOps args net ws2 st)).findSome? errOf with
    | none =>
      exfalso
      have hall := List.findSome?_eq_none_iff.mp hfs
      have hmem : single_accessibility_rows realOps args net ws st ∈
          parts.map (fun ws2 => single_accessibility_rows realOps args net ws2 st) :=
        List.mem_map.mpr ⟨ws, hws, rfl⟩
      have hno := hall _ hmem
      rw [hrows] at hno
      exact Option.noConfusion hno
    | some e2 =>
      refine ⟨e2, rfl, ?_⟩
      obtain ⟨r, hr, hfr⟩ := List.exists_of_findSome?_eq_some hfs
      obtain ⟨ws2, hws2, rfl⟩ := List.mem_map.mp hr
      refine ⟨ws2, hws2, ?_⟩
      unfold single_accessibility_rows at hfr
      cases hsa : single_accessibility realOps args net ws2 st with
      | mk st1 e1 =>
        rw [hsa] at hfr
        cases e1 with
        | none => exact Option.noConfusion hfr
        | some e3 =>
          have : e3 = e2 := Option.some.inj hfr
          subst this
          rfl
  · intro hok
    have hrows : ∀ ws ∈ parts, single_accessibility_rows realOps args net ws st =
        Except.ok (workerRows (single_accessibility realOps args net ws st).1 ws) := by
      intro ws hws
      unfold single_accessibility_rows
      cases hsa : single_accessibility realOps args net ws st with
      | mk st1 e1 =>
        have hnone := hok ws hws
        rw [hsa] at hnone
        cases e1 with
        | some e2 => exact Option.noConfusion hnone
        | none => rfl
    have hfs : (parts.map
        (fun ws2 => single_accessibility_rows realOps args net ws2 st)).findSome? errOf = none := by
      rw [List.findSome?_eq_none_iff]
      intro r hr
      obtain ⟨ws2, hws2, rfl⟩ := List.mem_map.mp hr
      rw [hrows ws2 hws2]
      rfl
    simp only [parallel_accessibility]
    rw [hfs]
    have hmapfst : (((parts.map
        (fun ws2 => single_accessibility_rows realOps args net ws2 st)).map rowsOf).flatten).map
          (fun r => r.1) = parts.flatten := by
      rw [List.map_map]
      have h1 : parts.map (rowsOf ∘ (fun ws2 => single_accessibility_rows realOps args net ws2 st)) =
          parts.map (fun ws2 =>
            workerRows (single_accessibility realOps args net ws2 st).1 ws2) := by
        apply List.map_congr_left
        intro ws2 hws2
        simp only [Function.comp]
        rw [hrows ws2 hws2]
        rfl
      rw [h1, List.map_flatten, List.map_map]
      have h2 : parts.map ((List.map (fun r : ℕ × Option (Option ℝ) × Option (Option ℝ) => r.1)) ∘
          (fun ws2 => workerRows (single_accessibility realOps args net ws2 st).1 ws2)) =
          parts.map (fun ws2 => ws2) := by
        apply List.map_congr_left
        intro ws2 hws2
        simp only [Function.comp, workerRows, List.map_map]
        exact List.map_id ws2
      rw [h2]
      have h3 : parts.map (fun ws2 => ws2) = parts := List.map_id parts
      rw [h3]
    exact ⟨_, rfl, hmapfst, hmapfst ▸ hperm⟩

theorem C6_witness :
    ((∃ ws ∈ [[10]], ∃ e, (single_accessibility realOps tArgsPlain tNet ws tState).2 = some e) →
      ∃ e, parallel_accessibility realOps tArgsPlain tNet [[10]] tState = Except.error e ∧
        ∃ ws ∈ [[10]], (single_accessibility realOps tArgsPlain tNet ws tState).2 = some e) ∧
    ((∀ ws ∈ [[10]], (single_accessibility realOps tArgsPlain tNet ws tState).2 = none) →
      ∃ rows, parallel_accessibility realOps tArgsPlain tNet [[10]] tState = Except.ok rows ∧
        rows.map (fun r => r.1) = [[10]].flatten ∧
        (rows.map (fun r => r.1)).Perm tNet.origins) :=
  C6_parallel_fail_fast_and_merge tArgsPlain tNet tState [[10]] (by simp [tNet])

/-- C7 (amended): for the src-layout create_street_network
(src/madina/zonal/zonal.py), any call whose source layer and weight
attribute are valid but whose node_snapping_tolerance is negative,
redundant_edge_treatment is outside keep/discard/split,
turn_threshold_degree is outside [0, 180], or turn_penalty_amount is
negative, returns a ValueError naming an offending parameter and leaves the
Zonal state - its network in particular - unchanged, before any construction
runs.  The legacy duplicate madina/zonal/zonal.py performs no such
validation; see the counterexample. -/
theorem C7_create_street_network_validation {g : Type}
    (builder : String → Option String → ℚ → String → ℚ → ℚ → g)
    (z : ZonalState g) (source_layer : String) (weight_attribute : Option String)
    (tol : ℚ) (tr : String) (th pen : ℚ)
    (hsl : (z.layers.lookup source_layer).isSome)
    (hwa : ∀ w, weight_attribute = some w → w ∈ (z.layers.lookup source_layer).getD [])
    (hbad : tol < 0 ∨ tr ∉ ["keep", "discard", "split"] ∨ th < 0 ∨ 180 < th ∨ pen < 0) :
    ∃ p : CSNParam,
      create_street_network builder z source_layer weight_attribute tol tr th pen =
        (z, some (CSNError.valueError p)) ∧
      ((p = CSNParam.nodeSnappingTolerance ∧ tol < 0) ∨
       (p = CSNParam.redundantEdgeTreatment ∧ tr ∉ ["keep", "discard", "split"]) ∨
       (p = CSNParam.turnThresholdDegree ∧ (th < 0 ∨ 180 < th)) ∨
       (p = CSNParam.turnPenaltyAmount ∧ pen < 0)) := by
  have h1 : (z.layers.lookup source_layer).isNone = false := by
    cases hopt : z.layers.lookup source_layer with
    | none => rw [hopt] at hsl; exact absurd hsl (by simp)
    | some v => rfl
  have h2 : weightAttrBad z source_layer weight_attribute = false := by
    unfold weightAttrBad
    cases hw : weight_attribute with
    | none => rfl
    | some w =>
      simp [hwa w hw]
  by_cases htol : tol < 0
  · refine ⟨CSNParam.nodeSnappingTolerance, ?_, Or.inl ⟨rfl, htol⟩⟩
    simp [create_street_network, h1, h2, htol]
  · by_cases htr : tr ∈ ["keep", "discard", "split"]
    · have htr3 : tr = "keep" ∨ tr = "discard" ∨ tr = "split" := by simpa using htr
      by_cases hth : th < 0 ∨ 180 < th
      · refine ⟨CSNParam.turnThresholdDegree, ?_, Or.inr (Or.inr (Or.inl ⟨rfl, hth⟩))⟩
        rcases htr3 with h3 | h3 | h3 <;> subst h3 <;>
          simp [create_street_network, h1, h2, htol, hth]
      · have hpen : pen < 0 := by
          rcases hbad with h | h | h | h | h
          · exact absurd h htol
          · exact absurd htr h
          · exact absurd (Or.inl h) hth
          · exact absurd (Or.inr h) hth
          · exact h
        refine ⟨CSNParam.turnPenaltyAmount, ?_, Or.inr (Or.inr (Or.inr ⟨rfl, hpen⟩))⟩
        rcases htr3 with h3 | h3 | h3 <;> subst h3 <;>
          simp [create_street_network, h1, h2, htol, hth, hpen]
    · refine ⟨CSNParam.redundantEdgeTreatment, ?_, Or.inr (Or.inl ⟨rfl, htr⟩)⟩
      simp only [create_street_network, h1, h2, htol, Bool.false_eq_true, if_false]
      simp
      intro himp
      exfalso
      apply htr
      by_cases hk : tr = "keep"
      · simp [hk]
      · by_cases hd : tr = "discard"
        · simp [hd]
        · simp [himp hk hd]

theorem C7_witness :
    ∃ p : CSNParam,
      create_street_network (fun _ _ _ _ _ _ => ()) tZonal7 "streets" none (-1) "split" 45 30 =
        (tZonal7, some (CSNError.valueError p)) ∧
      ((p = CSNParam.nodeSnappingTolerance ∧ (-1 : ℚ) < 0) ∨
       (p = CSNParam.redundantEdgeTreatment ∧ "split" ∉ ["keep", "discard", "split"]) ∨
       (p = CSNParam.turnThresholdDegree ∧ ((45 : ℚ) < 0 ∨ 180 < (45 : ℚ))) ∨
       (p = CSNParam.turnPenaltyAmount ∧ (30 : ℚ) < 0)) :=
  C7_create_street_network_validation (fun _ _ _ _ _ _ => ()) tZonal7 "streets" none
    (-1) "split" 45 30 (by rfl) (fun w h => Option.noConfusion h)
    (Or.inl (by norm_num))

/-- C7 counterexample: the legacy top-level create_street_network
(madina/zonal/zonal.py lines 120-199) raises no configuration error on a
negative node_snapping_tolerance: the call proceeds into construction and
replaces the network attribute, so the claim fails at this input. -/
theorem C7_counterexample :
    (legacy_create_street_network (fun _ _ _ _ _ _ => ()) tZonal7 "streets" none (-1)
      false false false true 45 30).2 = none ∧
    (legacy_create_street_network (fun _ _ _ _ _ _ => ()) tZonal7 "streets" none (-1)
      false false false true 45 30).1.network ≠ tZonal7.network := by
  constructor
  · rfl
  · intro h
    simp [legacy_create_street_network, tZonal7] at h

/-- C8 (amended): the color-resolution step of color_gdf is independent of
the hidden random stream whenever an explicit color argument is supplied
(as on the create_street_network and insert_node paths), but layer loading
and the color=None paths draw fresh random colors, so two otherwise
identical calls differ in the stored styling state; see the
counterexample. -/
theorem C8_color_resolution_deterministic_when_color_given
    (rng rng2 : ℕ → ℚ) (distinctVals : List String) (hasColorByAttribute : Bool)
    (color_method : Option String) (spec : PyColorSpec) :
    resolveColorArgs rng distinctVals hasColorByAttribute color_method (some spec) =
      resolveColorArgs rng2 distinctVals hasColorByAttribute color_method (some spec) := by
  simp [resolveColorArgs]

/-- C8 counterexample: load_layer stores a default layer color built from
three random.random() draws; two runs differing only in the hidden random
stream store different default colors, so identical inputs do not yield an
identical resulting state. -/
theorem C8_counterexample :
    defaultLayerColor (fun _ => 0) ≠ defaultLayerColor (fun _ => 1) := by
  norm_num [defaultLayerColor, pyRound]
